import Mathlib

set_option maxHeartbeats 2000000
set_option maxRecDepth 4000

namespace OrgLex

/-- Pygments token types referenced by `lexer.py` (each constructor is one of
the `pygments.token` types the table uses; several symbolic org-mode names
below alias the same type, exactly as in the source). -/
inductive TokKind where
  | Keyword
  | KeywordNamespace
  | KeywordDeclaration
  | KeywordPseudo
  | KeywordReserved
  | NameClass
  | NameVariableClass
  | LiteralString
  | CommentPreproc
  | CommentMultiline
  | Text
  | Error
  | StringEscape
  | GenericEmph
  | GenericStrong
  deriving DecidableEq

/-- One emitted token: the `(index, tokentype, value)` triple yielded by
`get_tokens_unprocessed`. -/
structure Token where
  offset : Nat
  kind : TokKind
  text : List Char
  deriving DecidableEq

namespace OrgMode

/-- Symbolic names for org-mode tokens (class `OrgMode` in `lexer.py`). -/
def Markup : TokKind := .Keyword

def Block : TokKind := .CommentPreproc

def Heading1 : TokKind := .KeywordNamespace

def Heading2 : TokKind := .Keyword

def Heading3 : TokKind := .NameClass

def Heading4 : TokKind := .KeywordNamespace

def HeadingRest : TokKind := .LiteralString

def MetaData : TokKind := .CommentPreproc

def Drawer : TokKind := .CommentMultiline

def TodoActive : TokKind := .KeywordDeclaration

def TodoPending : TokKind := .KeywordPseudo

def TodoTerminal : TokKind := .KeywordReserved

def Timestamp : TokKind := .NameVariableClass

end OrgMode

/-! ## A small backtracking regex engine

The lexer compiles its patterns with `re.MULTILINE | re.DOTALL | re.IGNORECASE`
and matches them anchored at the cursor (`pattern.match(text, pos)`).  Every
quantifier in the table ranges over a single-character class, so the regex
abstract syntax below only needs quantified character classes; matching is a
faithful backtracking search producing candidate matches in the exact
preference order of the Python `re` engine (alternation left first,
greedy longest first, lazy shortest first, rightmost component backtracks
first). -/

/-- Regex abstract syntax.  `bol` is `^` under MULTILINE; the four quantifier
forms are greedy / lazy star and plus over a character class. -/
inductive RE where
  | eps
  | cls (p : Char → Bool)
  | cat (a b : RE)
  | alt (a b : RE)
  | opt (a : RE)
  | starCls (p : Char → Bool)
  | plusCls (p : Char → Bool)
  | lstarCls (p : Char → Bool)
  | lplusCls (p : Char → Bool)
  | bol
  | group (n : Nat) (a : RE)

/-- Captured groups: `(group number, start, stop)` triples. -/
abbrev Caps := List (Nat × Nat × Nat)

/-- Length of the maximal prefix run of characters satisfying `p`. -/
def runLen (p : Char → Bool) : List Char → Nat
  | [] => 0
  | c :: cs => if p c then runLen p cs + 1 else 0

/-- Backtracking matcher in continuation-passing style: all candidate
continuation results, in Python `re` preference order. -/
def reM : RE → List Char → Nat → Caps → (Nat → Caps → List (Nat × Caps)) →
    List (Nat × Caps)
  | .eps, _, i, g, k => k i g
  | .cls p, s, i, g, k =>
      match s[i]? with
      | some c => if p c then k (i + 1) g else []
      | none => []
  | .cat a b, s, i, g, k => reM a s i g (fun j g2 => reM b s j g2 k)
  | .alt a b, s, i, g, k => reM a s i g k ++ reM b s i g k
  | .opt a, s, i, g, k => reM a s i g k ++ k i g
  | .starCls p, s, i, g, k =>
      (((List.range (runLen p (s.drop i) + 1)).reverse).map
        (fun d => k (i + d) g)).flatten
  | .plusCls p, s, i, g, k =>
      (((List.range (runLen p (s.drop i))).reverse).map
        (fun d => k (i + d + 1) g)).flatten
  | .lstarCls p, s, i, g, k =>
      ((List.range (runLen p (s.drop i) + 1)).map
        (fun d => k (i + d) g)).flatten
  | .lplusCls p, s, i, g, k =>
      ((List.range (runLen p (s.drop i))).map
        (fun d => k (i + d + 1) g)).flatten
  | .bol, s, i, g, k =>
      if i = 0 then k i g
      else
        match s[i - 1]? with
        | some c => if c = '\n' then k i g else []
        | none => []
  | .group n a, s, i, g, k => reM a s i g (fun j g2 => k j ((n, i, j) :: g2))

/-- Anchored match at position `i`: the first candidate in preference order,
exactly what `compiled.match(text, pos)` returns. -/
def reMatch (r : RE) (s : List Char) (i : Nat) : Option (Nat × Caps) :=
  (reM r s i [] (fun j g => [(j, g)])).head?

/-- Look up the span of capture group `n` (`match.start(n)`, `match.end(n)`);
`none` models a group that did not participate in the match. -/
def capGet (g : Caps) (n : Nat) : Option (Nat × Nat) :=
  match g.find? (fun t => t.1 = n) with
  | some (_, a, b) => some (a, b)
  | none => none

/-- Substring of `s` from `a` (inclusive) to `b` (exclusive). -/
def slice (s : List Char) (a b : Nat) : List Char :=
  (s.drop a).take (b - a)

/-! ## Character classes and pattern helpers -/

/-- Class of `.` under `re.DOTALL`: any character, newline included. -/
def anyP : Char → Bool := fun _ => true

/-- Literal character. -/
def chr (c : Char) : RE := .cls (fun x => x == c)

/-- Case-insensitive literal character (patterns are compiled with
`re.IGNORECASE`). -/
def ichr (c : Char) : RE := .cls (fun x => x.toLower == c.toLower)

/-- Case-insensitive literal string, as a concatenation chain. -/
def istr : List Char → RE
  | [] => .eps
  | c :: cs => .cat (ichr c) (istr cs)

/-- Class `[a-zA-Z0-9 ]` (unchanged by IGNORECASE). -/
def wordSp : Char → Bool := fun c => c.isAlphanum || c == ' '

/-- Class `[a-z\-]` under IGNORECASE: ASCII letters and the dash. -/
def langCh : Char → Bool := fun c => c.isAlpha || c == '-'

/-- Literal space in a pattern. -/
def spaceCh : Char → Bool := fun c => c == ' '

/-- Python `\s` on its ASCII range. -/
def isPySpace : Char → Bool := fun c =>
  c == ' ' || c == '\t' || c == '\n' || c == '\r' || c == '\x0b' || c == '\x0c'

/-! ## The patterns of `OrgModeLexer.tokens` -/

/-- Heading rule pattern `^(,?[*]{1,} *)(TODO|DONE|WAIT|CANCELLED)?(.+?)(\n)`. -/
def headingRE : RE :=
  .cat .bol (.cat
    (.group 1 (.cat (.opt (chr ','))
      (.cat (.plusCls (fun c => c == '*')) (.starCls spaceCh))))
    (.cat (.opt (.group 2 (.alt (istr ("TODO".data)) (.alt (istr ("DONE".data))
      (.alt (istr ("WAIT".data)) (istr ("CANCELLED".data)))))))
      (.cat (.group 3 (.lplusCls anyP)) (.group 4 (chr '\n')))))

/-- Fenced source block pattern
`^( *#\+BEGIN_SRC +)([a-z\-]+)(.*?\n)(.*?\n)(#\+END_SRC.*?\n)`. -/
def srcBlockRE : RE :=
  .cat .bol (.cat
    (.group 1 (.cat (.starCls spaceCh)
      (.cat (istr ("#+BEGIN_SRC".data)) (.plusCls spaceCh))))
    (.cat (.group 2 (.plusCls langCh))
      (.cat (.group 3 (.cat (.lstarCls anyP) (chr '\n')))
        (.cat (.group 4 (.cat (.lstarCls anyP) (chr '\n')))
          (.group 5 (.cat (istr ("#+END_SRC".data))
            (.cat (.lstarCls anyP) (chr '\n'))))))))

/-- Generic block opening pattern `^ *#\+BEGIN_(QUOTE|EXAMPLE|VERSE|SRC).*?\n`. -/
def beginBlockRE : RE :=
  .cat .bol (.cat (.starCls spaceCh) (.cat (istr ("#+BEGIN_".data))
    (.cat (.group 1 (.alt (istr ("QUOTE".data)) (.alt (istr ("EXAMPLE".data))
      (.alt (istr ("VERSE".data)) (istr ("SRC".data))))))
      (.cat (.lstarCls anyP) (chr '\n')))))

/-- Block closing pattern `^ *#\+END_(QUOTE|EXAMPLE|VERSE|SRC).*?\n`. -/
def endBlockRE : RE :=
  .cat .bol (.cat (.starCls spaceCh) (.cat (istr ("#+END_".data))
    (.cat (.group 1 (.alt (istr ("QUOTE".data)) (.alt (istr ("EXAMPLE".data))
      (.alt (istr ("VERSE".data)) (istr ("SRC".data))))))
      (.cat (.lstarCls anyP) (chr '\n')))))

/-- Metadata line pattern `^( *#\+[a-zA-Z0-9].*?)(\n)`. -/
def metaRE : RE :=
  .cat .bol (.cat
    (.group 1 (.cat (.starCls spaceCh) (.cat (istr ("#+".data))
      (.cat (.cls Char.isAlphanum) (.lstarCls anyP)))))
    (.group 2 (chr '\n')))

/-- Drawer and property line pattern `^( *:[a-zA-Z0-9].*?:.*?)(\n)`. -/
def drawerRE : RE :=
  .cat .bol (.cat
    (.group 1 (.cat (.starCls spaceCh) (.cat (chr ':')
      (.cat (.cls Char.isAlphanum)
        (.cat (.lstarCls anyP) (.cat (chr ':') (.lstarCls anyP)))))))
    (.group 2 (chr '\n')))

/-- Scheduling line opening pattern `^ *(CLOSED|SCHEDULED|DEADLINE)`. -/
def schedOpenRE : RE :=
  .cat .bol (.cat (.starCls spaceCh)
    (.group 1 (.alt (istr ("CLOSED".data))
      (.alt (istr ("SCHEDULED".data)) (istr ("DEADLINE".data))))))

/-- Unordered list bullet pattern `^\s*[-+]\s`. -/
def ulistRE : RE :=
  .cat .bol (.cat (.starCls isPySpace)
    (.cat (.cls (fun c => c == '-' || c == '+')) (.cls isPySpace)))

/-- Ordered list bullet pattern `^\s*[0-9]+\.\s`. -/
def olistRE : RE :=
  .cat .bol (.cat (.starCls isPySpace)
    (.cat (.plusCls Char.isDigit) (.cat (chr '.') (.cls isPySpace))))

/-- Backslash escape pattern `\\.`. -/
def escapeRE : RE := .cat (chr '\\') (.cls anyP)

/-- Verbatim emphasis pattern `(=)(.+?)(=)`. -/
def eqEmphRE : RE :=
  .cat (.group 1 (chr '=')) (.cat (.group 2 (.lplusCls anyP)) (.group 3 (chr '=')))

/-- Strong emphasis pattern `([*])(.+?)([*])`. -/
def starEmphRE : RE :=
  .cat (.group 1 (chr '*')) (.cat (.group 2 (.lplusCls anyP)) (.group 3 (chr '*')))

/-- Concatenation of single-character classes. -/
def clsSeq : List (Char → Bool) → RE
  | [] => .eps
  | p :: ps => .cat (.cls p) (clsSeq ps)

/-- Character classes of the timestamp pattern
`[<\[]....-..-.. ... ..:..[\]>]`, one per consumed position. -/
def tsPreds : List (Char → Bool) :=
  [fun c => c == '<' || c == '[',
   anyP, anyP, anyP, anyP,
   fun c => c == '-', anyP, anyP,
   fun c => c == '-', anyP, anyP,
   spaceCh, anyP, anyP, anyP,
   spaceCh, anyP, anyP,
   fun c => c == ':', anyP, anyP,
   fun c => c == ']' || c == '>']

/-- Timestamp pattern `[<\[]....-..-.. ... ..:..[\]>]`. -/
def timestampRE : RE := clsSeq tsPreds

/-- Word run pattern `[a-zA-Z0-9 ]+` ("optimize normal words a little"). -/
def wordsRE : RE := .plusCls wordSp

/-- Default fallback pattern `.`. -/
def anyRE : RE := .cls anyP

/-- Newline pattern `\n`. -/
def nlRE : RE := chr '\n'

/-! ## States, rules and callback actions -/

/-- Lexical state names (the keys of `OrgModeLexer.tokens`). -/
inductive StateName where
  | root
  | todo
  | scheduled
  | inline
  | block
  deriving DecidableEq

/-- Rule action: a plain token type, a `bygroups(...)` emission, or one of the
two callback functions of class `OrgMode`. -/
inductive Action where
  | tok (k : TokKind)
  | bygroups (ks : List TokKind)
  | heading
  | sourceBlock

/-- State transition attached to a rule: none, push a named state, or `#pop`. -/
inductive Trans where
  | stay
  | push (st : StateName)
  | pop
  deriving DecidableEq

/-- One `(pattern, action, new_state)` entry of the rule list of a state. -/
structure Rule where
  re : RE
  act : Action
  trans : Trans

/-- The alias table `LEXER_ALIASES = {"conf": "ini"}`. -/
def lexerAlias (name : List Char) : List Char :=
  if name = "conf".data then ("ini".data) else name

/-- The sub-tokenizer registry, an injected external collaborator
(`get_lexer_by_name` composed with the `get_tokens_unprocessed` of the found
lexer); `none` models `ClassNotFound`. -/
def Resolver := List Char → Option (List Char → List Token)

/-- TODO-keyword normalization of `OrgMode.heading`:
`todo_tokens.get(todo.upper(), TodoActive)`. -/
def todoLookup (w : List Char) : TokKind :=
  let u := w.map Char.toUpper
  if u = "TODO".data then OrgMode.TodoActive
  else if u = "DONE".data then OrgMode.TodoTerminal
  else if u = "WAIT".data then OrgMode.TodoPending
  else if u = "CANCELLED".data then OrgMode.TodoTerminal
  else OrgMode.TodoActive

/-- The `levels` list of `OrgMode.heading`. -/
def headingLevels : List TokKind :=
  [OrgMode.Heading1, OrgMode.Heading2, OrgMode.Heading3, OrgMode.Heading4,
   OrgMode.HeadingRest]

/-- Heading classification `levels[min(level.count("*") - 1, len(levels) - 1)]`.
The pattern guarantees at least one `*` in the marker group; the `count = 0`
branch mirrors the Python negative index `levels[-1]` on that dead path. -/
def headingKindOf (level : List Char) : TokKind :=
  if level.count '*' = 0 then OrgMode.HeadingRest
  else headingLevels.getD (min (level.count '*' - 1) 4) OrgMode.HeadingRest

/-- Token emission of the `OrgMode.heading` callback: marker group, optional
TODO keyword, title group, trailing newline. -/
def headingTokens (s : List Char) (pos : Nat) (g : Caps) : List Token :=
  match capGet g 1, capGet g 3, capGet g 4 with
  | some (a1, b1), some (a3, b3), some (a4, b4) =>
    let level := slice s a1 b1
    let headingToken := headingKindOf level
    (Token.mk pos headingToken level ::
      (match capGet g 2 with
       | some (a2, b2) =>
         [Token.mk a2 (todoLookup (slice s a2 b2)) (slice s a2 b2)]
       | none => [])) ++
    [Token.mk a3 headingToken (slice s a3 b3), Token.mk a4 .Text (slice s a4 b4)]
  | _, _, _ => []

/-- Token emission of the `OrgMode.source_block` callback.  On successful
resolution the sub-tokenizer output is spliced verbatim (`yield token`), so
the spliced offsets stay relative to the block body; on `ClassNotFound` the
whole body is one Block token. -/
def sourceBlockTokens (resolve : Resolver) (s : List Char) (pos : Nat)
    (g : Caps) : List Token :=
  match capGet g 1, capGet g 2, capGet g 3, capGet g 4, capGet g 5 with
  | some (a1, b1), some (a2, b2), some (a3, b3), some (a4, b4), some (a5, b5) =>
    let codeType := slice s a2 b2
    let body := slice s a4 b4
    Token.mk pos OrgMode.Block (slice s a1 b1 ++ codeType ++ slice s a3 b3) ::
    ((match resolve (lexerAlias codeType) with
      | some sub => sub body
      | none => [Token.mk a4 OrgMode.Block body]) ++
     [Token.mk a5 OrgMode.Block (slice s a5 b5)])
  | _, _, _, _, _ => []

/-- Token emission of `bygroups(...)`: group `n` gets kind `ks[n-1]`, skipped
when the group did not participate or matched the empty string. -/
def bygroupsTokens (s : List Char) (g : Caps) : Nat → List TokKind → List Token
  | _, [] => []
  | n, k :: ks =>
    (match capGet g n with
     | some (a, b) => if a < b then [Token.mk a k (slice s a b)] else []
     | none => []) ++ bygroupsTokens s g (n + 1) ks

/-- Tokens emitted for one matched rule action, for a match spanning
`[pos, e)` with captures `g`. -/
def applyAction (resolve : Resolver) (s : List Char) (pos e : Nat) (g : Caps) :
    Action → List Token
  | .tok k => [Token.mk pos k (slice s pos e)]
  | .bygroups ks => bygroupsTokens s g 1 ks
  | .heading => headingTokens s pos g
  | .sourceBlock => sourceBlockTokens resolve s pos g

/-- Apply a rule transition to the state stack (head is the top). -/
def applyTrans (stack : List StateName) : Trans → List StateName
  | .stay => stack
  | .push st => st :: stack
  | .pop => stack.tail

/-! ## The rule tables -/

def ruleHeading : Rule := ⟨headingRE, .heading, .stay⟩

def ruleSrcBlock : Rule := ⟨srcBlockRE, .sourceBlock, .stay⟩

def ruleBeginBlock : Rule := ⟨beginBlockRE, .tok OrgMode.Block, .push .block⟩

def ruleMeta : Rule := ⟨metaRE, .bygroups [OrgMode.MetaData, .Text], .stay⟩

def ruleDrawerLine : Rule := ⟨drawerRE, .bygroups [OrgMode.Drawer, .Text], .stay⟩

def ruleSchedOpen : Rule := ⟨schedOpenRE, .tok OrgMode.Drawer, .push .scheduled⟩

def ruleUList : Rule := ⟨ulistRE, .tok OrgMode.Markup, .stay⟩

def ruleOList : Rule := ⟨olistRE, .tok OrgMode.Markup, .stay⟩

def ruleEscape : Rule := ⟨escapeRE, .tok .StringEscape, .stay⟩

def ruleEqEmph : Rule :=
  ⟨eqEmphRE, .bygroups [OrgMode.Markup, .GenericEmph, OrgMode.Markup], .stay⟩

def ruleStarEmph : Rule :=
  ⟨starEmphRE, .bygroups [OrgMode.Markup, .GenericStrong, OrgMode.Markup], .stay⟩

def ruleTsInline : Rule := ⟨timestampRE, .tok OrgMode.Timestamp, .stay⟩

def ruleWordsText : Rule := ⟨wordsRE, .tok .Text, .stay⟩

def ruleAnyText : Rule := ⟨anyRE, .tok .Text, .stay⟩

def ruleTodoKwTodo : Rule := ⟨istr ("TODO".data), .tok OrgMode.TodoActive, .pop⟩

def ruleTodoKwDone : Rule := ⟨istr ("DONE".data), .tok OrgMode.TodoTerminal, .pop⟩

def ruleTodoKwWait : Rule := ⟨istr ("WAIT".data), .tok OrgMode.TodoPending, .pop⟩

def ruleTodoKwCancelled : Rule :=
  ⟨istr ("CANCELLED".data), .tok OrgMode.TodoTerminal, .pop⟩

def ruleTsSched : Rule := ⟨timestampRE, .tok OrgMode.Timestamp, .stay⟩

def ruleWordsSched : Rule := ⟨wordsRE, .tok OrgMode.Drawer, .stay⟩

def ruleNlSched : Rule := ⟨nlRE, .tok .Text, .pop⟩

def ruleAnySched : Rule := ⟨anyRE, .tok OrgMode.Drawer, .stay⟩

def ruleEndBlock : Rule := ⟨endBlockRE, .tok OrgMode.Block, .pop⟩

def ruleNlBlock : Rule := ⟨nlRE, .tok OrgMode.Block, .stay⟩

def ruleWordsBlock : Rule := ⟨wordsRE, .tok OrgMode.Block, .stay⟩

def ruleAnyBlock : Rule := ⟨anyRE, .tok OrgMode.Block, .stay⟩

/-- Rule list of state `inline`. -/
def inlineRules : List Rule :=
  [ruleEscape, ruleEqEmph, ruleStarEmph, ruleTsInline, ruleWordsText,
   ruleAnyText]

/-- Rule list of state `root`; the include of the inline state is spliced at
the end, as the Pygments table processor does. -/
def rootRules : List Rule :=
  [ruleHeading, ruleSrcBlock, ruleBeginBlock, ruleMeta, ruleDrawerLine,
   ruleSchedOpen, ruleUList, ruleOList] ++ inlineRules

/-- Rule list of state `todo`. -/
def todoRules : List Rule :=
  [ruleTodoKwTodo, ruleTodoKwDone, ruleTodoKwWait, ruleTodoKwCancelled]

/-- Rule list of state `scheduled`. -/
def scheduledRules : List Rule :=
  [ruleTsSched, ruleWordsSched, ruleNlSched, ruleAnySched]

/-- Rule list of state `block`. -/
def blockRules : List Rule :=
  [ruleEndBlock, ruleNlBlock, ruleWordsBlock, ruleAnyBlock]

/-- The full `OrgModeLexer.tokens` table. -/
def orgTokens : StateName → List Rule
  | .root => rootRules
  | .todo => todoRules
  | .scheduled => scheduledRules
  | .inline => inlineRules
  | .block => blockRules

/-! ## The scanner driver

Modelled from the spec: the driver loop (`RegexLexer.get_tokens_unprocessed`
of the Pygments host framework, described in §4.1 of the design) is not under
`src/`; the model follows the described algorithm — try the rules of the
current state in order at the cursor, emit the tokens of the matched rule,
advance past the
match, apply the transition; if no rule matches, an unmatched newline resets
the stack to `[root]` and is emitted as `Text`, any other unmatched character
is emitted as an `Error` token, and end of input terminates the scan. -/

/-- First rule of the list whose pattern matches at `pos`. -/
def firstMatch (s : List Char) (pos : Nat) : List Rule →
    Option (Rule × Nat × Caps)
  | [] => none
  | r :: rs =>
    match reMatch r.re s pos with
    | some (e, g) => some (r, e, g)
    | none => firstMatch s pos rs

/-- Driver loop: returns the emitted tokens and the final state stack.  The
`e ≤ pos` guard returns early on a zero-width match; it is dead code for this
rule table, whose every pattern consumes at least one character. -/
def scanAux (tbl : StateName → List Rule) (resolve : Resolver)
    (s : List Char) : Nat → List StateName → Nat → List Token × List StateName
  | 0, stack, _ => ([], stack)
  | fuel + 1, stack, pos =>
    match firstMatch s pos (tbl (stack.headD .root)) with
    | some (r, e, g) =>
      let toks := applyAction resolve s pos e g r.act
      if e ≤ pos then (toks, stack)
      else
        let rest := scanAux tbl resolve s fuel (applyTrans stack r.trans) e
        (toks ++ rest.1, rest.2)
    | none =>
      if h : pos < s.length then
        if s.get ⟨pos, h⟩ = '\n' then
          let rest := scanAux tbl resolve s fuel [.root] (pos + 1)
          (Token.mk pos .Text ['\n'] :: rest.1, rest.2)
        else
          let rest := scanAux tbl resolve s fuel stack (pos + 1)
          (Token.mk pos .Error [s.get ⟨pos, h⟩] :: rest.1, rest.2)
      else ([], stack)

/-- Tokenize a full document with the org-mode table, starting from the root
state: the model of `OrgModeLexer().get_tokens_unprocessed(text)`. -/
def get_tokens_unprocessed (resolve : Resolver) (s : List Char) : List Token :=
  (scanAux orgTokens resolve s (s.length + 1) [.root] 0).1

/-- Final state stack left when the scan of a full document terminates. -/
def finalStack (resolve : Resolver) (s : List Char) : List StateName :=
  (scanAux orgTokens resolve s (s.length + 1) [.root] 0).2

/-- All state stacks the driver holds during a scan, in visit order. -/
def scanStacks (tbl : StateName → List Rule) (resolve : Resolver)
    (s : List Char) : Nat → List StateName → Nat → List (List StateName)
  | 0, stack, _ => [stack]
  | fuel + 1, stack, pos =>
    stack ::
    (match firstMatch s pos (tbl (stack.headD .root)) with
     | some (r, e, _) =>
       if e ≤ pos then []
       else scanStacks tbl resolve s fuel (applyTrans stack r.trans) e
     | none =>
       if h : pos < s.length then
         if s.get ⟨pos, h⟩ = '\n' then
           scanStacks tbl resolve s fuel [.root] (pos + 1)
         else scanStacks tbl resolve s fuel stack (pos + 1)
       else [])

/-- Concatenation of the text fields of a token stream. -/
def concatTexts (ts : List Token) : List Char :=
  (ts.map Token.text).flatten

/-! ## Declarative match semantics and soundness of the matcher -/

/-- Run of `d` characters starting at `i`, all satisfying `p`. -/
def RunFrom (p : Char → Bool) (s : List Char) (i d : Nat) : Prop :=
  ∀ t, t < d → ∃ c, s[i + t]? = some c ∧ p c = true

/-- Declarative match relation: `Sem r s i j g g2` states that `r` can match
the span `[i, j)` of `s`, extending the capture list `g` to `g2`. -/
inductive Sem : RE → List Char → Nat → Nat → Caps → Caps → Prop where
  | eps : Sem .eps s i i g g
  | cls : s[i]? = some c → p c = true → Sem (.cls p) s i (i + 1) g g
  | cat : Sem a s i j g g1 → Sem b s j e g1 g2 → Sem (.cat a b) s i e g g2
  | altL : Sem a s i e g g2 → Sem (.alt a b) s i e g g2
  | altR : Sem b s i e g g2 → Sem (.alt a b) s i e g g2
  | optS : Sem a s i e g g2 → Sem (.opt a) s i e g g2
  | optN : Sem (.opt a) s i i g g
  | star : RunFrom p s i d → Sem (.starCls p) s i (i + d) g g
  | plus : RunFrom p s i d → 1 ≤ d → Sem (.plusCls p) s i (i + d) g g
  | lstar : RunFrom p s i d → Sem (.lstarCls p) s i (i + d) g g
  | lplus : RunFrom p s i d → 1 ≤ d → Sem (.lplusCls p) s i (i + d) g g
  | bol0 : Sem .bol s 0 0 g g
  | bolNl : s[i - 1]? = some '\n' → Sem .bol s i i g g
  | group : Sem a s i j g g2 → Sem (.group n a) s i j g ((n, i, j) :: g2)

theorem runLen_lt (p : Char → Bool) :
    ∀ (l : List Char) (t : Nat), t < runLen p l →
      ∃ c, l[t]? = some c ∧ p c = true := by
  intro l
  induction l with
  | nil => intro t ht; simp [runLen] at ht
  | cons c cs ih =>
    intro t ht
    by_cases hp : p c
    · cases t with
      | zero => exact ⟨c, by simp, hp⟩
      | succ t =>
        simp only [runLen, hp, if_true] at ht
        obtain ⟨d, hd, hpd⟩ := ih t (by omega)
        exact ⟨d, by simpa using hd, hpd⟩
    · simp [runLen, hp] at ht

theorem runFrom_of_le {p : Char → Bool} {s : List Char} {i d : Nat}
    (h : d ≤ runLen p (s.drop i)) : RunFrom p s i d := by
  intro t ht
  obtain ⟨c, hc, hp⟩ := runLen_lt p (s.drop i) t (lt_of_lt_of_le ht h)
  rw [List.getElem?_drop] at hc
  exact ⟨c, hc, hp⟩

/-- Soundness of the backtracking matcher: every result produced through the
continuation comes from a declarative match. -/
theorem reM_sound {s : List Char} (P : Nat × Caps → Prop) :
    ∀ (r : RE) (i : Nat) (g : Caps) (k : Nat → Caps → List (Nat × Caps)),
      (∀ j g2, Sem r s i j g g2 → ∀ x ∈ k j g2, P x) →
      ∀ x ∈ reM r s i g k, P x := by
  intro r
  induction r with
  | eps =>
    intro i g k hk x hx
    exact hk i g .eps x hx
  | cls p =>
    intro i g k hk x hx
    simp only [reM] at hx
    rcases hs : s[i]? with _ | c <;> rw [hs] at hx
    · simp at hx
    · by_cases hp : p c
      · refine hk (i + 1) g (.cls hs hp) x ?_
        simpa [hp] using hx
      · simp [hp] at hx
  | cat a b iha ihb =>
    intro i g k hk x hx
    simp only [reM] at hx
    exact iha i g _ (fun j g2 hja => ihb j g2 k
      (fun e g3 hjb => hk e g3 (.cat hja hjb))) x hx
  | alt a b iha ihb =>
    intro i g k hk x hx
    simp only [reM, List.mem_append] at hx
    rcases hx with hx | hx
    · exact iha i g k (fun j g2 hj => hk j g2 (.altL hj)) x hx
    · exact ihb i g k (fun j g2 hj => hk j g2 (.altR hj)) x hx
  | opt a iha =>
    intro i g k hk x hx
    simp only [reM, List.mem_append] at hx
    rcases hx with hx | hx
    · exact iha i g k (fun j g2 hj => hk j g2 (.optS hj)) x hx
    · exact hk i g .optN x hx
  | starCls p =>
    intro i g k hk x hx
    simp only [reM, List.mem_flatten, List.mem_map] at hx
    obtain ⟨l, ⟨d, hd, rfl⟩, hxl⟩ := hx
    rw [List.mem_reverse, List.mem_range] at hd
    exact hk (i + d) g
      (.star (runFrom_of_le (show d ≤ runLen p (s.drop i) by omega))) x hxl
  | plusCls p =>
    intro i g k hk x hx
    simp only [reM, List.mem_flatten, List.mem_map] at hx
    obtain ⟨l, ⟨d, hd, rfl⟩, hxl⟩ := hx
    rw [List.mem_reverse, List.mem_range] at hd
    exact hk (i + d + 1) g
      (.plus (runFrom_of_le (show d + 1 ≤ runLen p (s.drop i) by omega))
        (by omega)) x hxl
  | lstarCls p =>
    intro i g k hk x hx
    simp only [reM, List.mem_flatten, List.mem_map] at hx
    obtain ⟨l, ⟨d, hd, rfl⟩, hxl⟩ := hx
    rw [List.mem_range] at hd
    exact hk (i + d) g
      (.lstar (runFrom_of_le (show d ≤ runLen p (s.drop i) by omega))) x hxl
  | lplusCls p =>
    intro i g k hk x hx
    simp only [reM, List.mem_flatten, List.mem_map] at hx
    obtain ⟨l, ⟨d, hd, rfl⟩, hxl⟩ := hx
    rw [List.mem_range] at hd
    exact hk (i + d + 1) g
      (.lplus (runFrom_of_le (show d + 1 ≤ runLen p (s.drop i) by omega))
        (by omega)) x hxl
  | bol =>
    intro i g k hk x hx
    simp only [reM] at hx
    by_cases hi : i = 0
    · rw [if_pos hi] at hx
      subst hi
      exact hk 0 g .bol0 x hx
    · rw [if_neg hi] at hx
      rcases hs : s[i - 1]? with _ | c <;> rw [hs] at hx
      · simp at hx
      · by_cases hc : c = '\n'
        · subst hc
          refine hk i g (.bolNl hs) x ?_
          simpa using hx
        · simp [hc] at hx
  | group n a iha =>
    intro i g k hk x hx
    simp only [reM] at hx
    exact iha i g _ (fun j g2 hj => hk j ((n, i, j) :: g2) (.group hj)) x hx

/-- Soundness at the interface: an anchored match is a declarative match. -/
theorem reMatch_sound {r : RE} {s : List Char} {i e : Nat} {g : Caps}
    (h : reMatch r s i = some (e, g)) : Sem r s i e [] g := by
  unfold reMatch at h
  have hmem : (e, g) ∈ reM r s i [] (fun j g2 => [(j, g2)]) := by
    rcases hl : reM r s i [] (fun j g2 => [(j, g2)]) with _ | ⟨a, t⟩
    · rw [hl] at h; simp at h
    · rw [hl] at h
      simp only [List.head?, Option.some.injEq] at h
      rw [h]
      exact List.mem_cons_self _ _
  exact reM_sound (fun x => Sem r s i x.1 [] x.2) r i []
    (fun j g2 => [(j, g2)])
    (fun j g2 hj x hx => by
      rcases List.mem_singleton.mp hx with rfl
      exact hj) (e, g) hmem

/-! ## Structural facts about matches -/

theorem getElem?_lt {s : List Char} {i : Nat} {c : Char}
    (h : s[i]? = some c) : i < s.length := by
  by_contra hlt
  rw [List.getElem?_eq_none (by omega)] at h
  cases h

/-- A match never moves the cursor backwards. -/
theorem Sem.pos_le {r : RE} {s : List Char} {i j : Nat} {g g2 : Caps}
    (h : Sem r s i j g g2) : i ≤ j := by
  induction h with
  | eps => exact le_refl _
  | cls _ _ => omega
  | cat _ _ ih1 ih2 => omega
  | altL _ ih => exact ih
  | altR _ ih => exact ih
  | optS _ ih => exact ih
  | optN => exact le_refl _
  | star _ => omega
  | plus _ _ => omega
  | lstar _ => omega
  | lplus _ _ => omega
  | bol0 => exact le_refl _
  | bolNl _ => exact le_refl _
  | group _ ih => exact ih

/-- A run of `d` characters starting inside the text stays inside it. -/
theorem runFrom_le_length {p : Char → Bool} {s : List Char} {i d : Nat}
    (hr : RunFrom p s i d) (hi : i ≤ s.length) : i + d ≤ s.length := by
  cases d with
  | zero => omega
  | succ d =>
    obtain ⟨c, hc, _⟩ := hr d (by omega)
    have := getElem?_lt hc
    omega

/-- A match starting inside the text ends inside the text. -/
theorem Sem.le_length {r : RE} {s : List Char} {i j : Nat} {g g2 : Caps}
    (h : Sem r s i j g g2) : i ≤ s.length → j ≤ s.length := by
  induction h with
  | eps => exact id
  | cls hs _ => intro _; have := getElem?_lt hs; omega
  | cat _ _ ih1 ih2 => intro hi; exact ih2 (ih1 hi)
  | altL _ ih => exact ih
  | altR _ ih => exact ih
  | optS _ ih => exact ih
  | optN => exact id
  | star hr => exact runFrom_le_length hr
  | plus hr _ => exact runFrom_le_length hr
  | lstar hr => exact runFrom_le_length hr
  | lplus hr _ => exact runFrom_le_length hr
  | bol0 => exact id
  | bolNl _ => exact id
  | group _ ih => exact ih

/-- Syntactic absence of capture groups. -/
def noGroups : RE → Bool
  | .cat a b => noGroups a && noGroups b
  | .alt a b => noGroups a && noGroups b
  | .opt a => noGroups a
  | .group _ _ => false
  | _ => true

/-- Matching a group-free pattern leaves the capture list unchanged. -/
theorem Sem.caps_of_noGroups {r : RE} {s : List Char} {i j : Nat} {g g2 : Caps}
    (h : Sem r s i j g g2) : noGroups r = true → g2 = g := by
  induction h with
  | eps => intro _; rfl
  | cls _ _ => intro _; rfl
  | cat _ _ ih1 ih2 =>
    intro hng
    simp only [noGroups, Bool.and_eq_true] at hng
    rw [ih2 hng.2, ih1 hng.1]
  | altL _ ih =>
    intro hng
    simp only [noGroups, Bool.and_eq_true] at hng
    exact ih hng.1
  | altR _ ih =>
    intro hng
    simp only [noGroups, Bool.and_eq_true] at hng
    exact ih hng.2
  | optS _ ih =>
    intro hng
    exact ih hng
  | optN => intro _; rfl
  | star _ => intro _; rfl
  | plus _ _ => intro _; rfl
  | lstar _ => intro _; rfl
  | lplus _ _ => intro _; rfl
  | bol0 => intro _; rfl
  | bolNl _ => intro _; rfl
  | group _ _ => intro hng; cases hng

/-- Syntactic guarantee that a pattern consumes at least one character. -/
def minLen1 : RE → Bool
  | .cls _ => true
  | .plusCls _ => true
  | .lplusCls _ => true
  | .cat a b => minLen1 a || minLen1 b
  | .alt a b => minLen1 a && minLen1 b
  | .group _ a => minLen1 a
  | _ => false

/-- A pattern that syntactically consumes a character matches a non-empty
span. -/
theorem Sem.lt_of_minLen1 {r : RE} {s : List Char} {i j : Nat} {g g2 : Caps}
    (h : Sem r s i j g g2) : minLen1 r = true → i < j := by
  induction h with
  | eps => intro hm; cases hm
  | cls _ _ => intro _; omega
  | cat h1 h2 ih1 ih2 =>
    intro hm
    simp only [minLen1, Bool.or_eq_true] at hm
    rcases hm with hm | hm
    · exact lt_of_lt_of_le (ih1 hm) h2.pos_le
    · exact lt_of_le_of_lt h1.pos_le (ih2 hm)
  | altL _ ih =>
    intro hm
    simp only [minLen1, Bool.and_eq_true] at hm
    exact ih hm.1
  | altR _ ih =>
    intro hm
    simp only [minLen1, Bool.and_eq_true] at hm
    exact ih hm.2
  | optS _ _ => intro hm; cases hm
  | optN => intro hm; cases hm
  | star _ => intro hm; cases hm
  | plus _ h1 => intro _; omega
  | lstar _ => intro hm; cases hm
  | lplus _ h1 => intro _; omega
  | bol0 => intro hm; cases hm
  | bolNl _ => intro hm; cases hm
  | group _ ih => intro hm; exact ih hm

/-! ## Slice arithmetic -/

theorem slice_append {s : List Char} {a m b : Nat} (h1 : a ≤ m) (h2 : m ≤ b) :
    slice s a m ++ slice s m b = slice s a b := by
  unfold slice
  rw [show s.drop m = (s.drop a).drop (m - a) by
    rw [List.drop_drop]; congr 1; omega]
  rw [show b - a = (m - a) + (b - m) by omega, List.take_add]

theorem drop_eq_slice_append {s : List Char} {a b : Nat} (h1 : a ≤ b) :
    s.drop a = slice s a b ++ s.drop b := by
  unfold slice
  rw [show s.drop b = (s.drop a).drop (b - a) by
    rw [List.drop_drop]; congr 1; omega]
  rw [List.take_append_drop]

theorem slice_one {s : List Char} {a : Nat} {c : Char} (h : s[a]? = some c) :
    slice s a (a + 1) = [c] := by
  unfold slice
  have ha : a < s.length := getElem?_lt h
  have hv : s[a] = c := by
    have := List.getElem?_eq_getElem ha
    rw [h] at this
    exact (Option.some.injEq _ _ ▸ this).symm
  rw [show a + 1 - a = 1 by omega, List.drop_eq_getElem_cons ha]
  simp [hv]

/-! ## Inversion of matches of the concrete patterns -/

theorem Sem.bol_inv {s : List Char} {i j : Nat} {g g2 : Caps}
    (h : Sem .bol s i j g g2) : j = i ∧ g2 = g := by
  cases h <;> exact ⟨rfl, rfl⟩

theorem Sem.cls_inv {p : Char → Bool} {s : List Char} {i j : Nat} {g g2 : Caps}
    (h : Sem (.cls p) s i j g g2) :
    j = i + 1 ∧ g2 = g ∧ ∃ c, s[i]? = some c ∧ p c = true := by
  cases h with
  | cls hs hp => exact ⟨rfl, rfl, _, hs, hp⟩

theorem Sem.cat_inv {a b : RE} {s : List Char} {i j : Nat} {g g2 : Caps}
    (h : Sem (.cat a b) s i j g g2) :
    ∃ m gm, Sem a s i m g gm ∧ Sem b s m j gm g2 := by
  cases h with
  | cat h1 h2 => exact ⟨_, _, h1, h2⟩

theorem Sem.group_inv {n : Nat} {a : RE} {s : List Char} {i j : Nat}
    {g g2 : Caps} (h : Sem (.group n a) s i j g g2) :
    ∃ gi, Sem a s i j g gi ∧ g2 = (n, i, j) :: gi := by
  cases h with
  | group h1 => exact ⟨_, h1, rfl⟩

theorem Sem.opt_inv {a : RE} {s : List Char} {i j : Nat} {g g2 : Caps}
    (h : Sem (.opt a) s i j g g2) :
    Sem a s i j g g2 ∨ (j = i ∧ g2 = g) := by
  cases h with
  | optS h1 => exact .inl h1
  | optN => exact .inr ⟨rfl, rfl⟩

/-- Inversion of a capture group with a group-free body. -/
theorem Sem.groupNG_inv {n : Nat} {a : RE} {s : List Char} {i j : Nat}
    {g g2 : Caps} (h : Sem (.group n a) s i j g g2)
    (hng : noGroups a = true) : Sem a s i j g g ∧ g2 = (n, i, j) :: g := by
  obtain ⟨gi, ha, hg2⟩ := h.group_inv
  have hcap := ha.caps_of_noGroups hng
  subst hcap
  exact ⟨ha, hg2⟩

/-- Structure of a metadata line match (`ruleMeta`). -/
theorem metaRE_inv {s : List Char} {i e : Nat} {g : Caps}
    (h : Sem metaRE s i e [] g) :
    ∃ b1, g = [(2, b1, e), (1, i, b1)] ∧ i < b1 ∧ e = b1 + 1 := by
  obtain ⟨m0, g0, hbol, hrest⟩ := h.cat_inv
  obtain ⟨rfl, rfl⟩ := hbol.bol_inv
  obtain ⟨b1, g1, hgr1, hgr2⟩ := hrest.cat_inv
  obtain ⟨hB1, rfl⟩ := hgr1.groupNG_inv (by rfl)
  obtain ⟨hnl, rfl⟩ := hgr2.groupNG_inv (by rfl)
  obtain ⟨he, -, -⟩ := hnl.cls_inv
  exact ⟨b1, rfl, hB1.lt_of_minLen1 (by rfl), he⟩

/-- Structure of a drawer line match (`ruleDrawerLine`). -/
theorem drawerRE_inv {s : List Char} {i e : Nat} {g : Caps}
    (h : Sem drawerRE s i e [] g) :
    ∃ b1, g = [(2, b1, e), (1, i, b1)] ∧ i < b1 ∧ e = b1 + 1 := by
  obtain ⟨m0, g0, hbol, hrest⟩ := h.cat_inv
  obtain ⟨rfl, rfl⟩ := hbol.bol_inv
  obtain ⟨b1, g1, hgr1, hgr2⟩ := hrest.cat_inv
  obtain ⟨hB1, rfl⟩ := hgr1.groupNG_inv (by rfl)
  obtain ⟨hnl, rfl⟩ := hgr2.groupNG_inv (by rfl)
  obtain ⟨he, -, -⟩ := hnl.cls_inv
  exact ⟨b1, rfl, hB1.lt_of_minLen1 (by rfl), he⟩

/-- Structure of a verbatim emphasis match (`ruleEqEmph`). -/
theorem eqEmphRE_inv {s : List Char} {i e : Nat} {g : Caps}
    (h : Sem eqEmphRE s i e [] g) :
    ∃ b2, g = [(3, b2, e), (2, i + 1, b2), (1, i, i + 1)] ∧
      i + 1 < b2 ∧ e = b2 + 1 := by
  obtain ⟨b1, g1, hgr1, hrest⟩ := h.cat_inv
  obtain ⟨hg1, rfl⟩ := hgr1.groupNG_inv (by rfl)
  obtain ⟨hb1, -, -⟩ := hg1.cls_inv
  subst hb1
  obtain ⟨b2, g2, hgr2, hgr3⟩ := hrest.cat_inv
  obtain ⟨hg2, rfl⟩ := hgr2.groupNG_inv (by rfl)
  obtain ⟨hg3, rfl⟩ := hgr3.groupNG_inv (by rfl)
  obtain ⟨he, -, -⟩ := hg3.cls_inv
  exact ⟨b2, rfl, hg2.lt_of_minLen1 (by rfl), he⟩

/-- Structure of a strong emphasis match (`ruleStarEmph`). -/
theorem starEmphRE_inv {s : List Char} {i e : Nat} {g : Caps}
    (h : Sem starEmphRE s i e [] g) :
    ∃ b2, g = [(3, b2, e), (2, i + 1, b2), (1, i, i + 1)] ∧
      i + 1 < b2 ∧ e = b2 + 1 := by
  obtain ⟨b1, g1, hgr1, hrest⟩ := h.cat_inv
  obtain ⟨hg1, rfl⟩ := hgr1.groupNG_inv (by rfl)
  obtain ⟨hb1, -, -⟩ := hg1.cls_inv
  subst hb1
  obtain ⟨b2, g2, hgr2, hgr3⟩ := hrest.cat_inv
  obtain ⟨hg2, rfl⟩ := hgr2.groupNG_inv (by rfl)
  obtain ⟨hg3, rfl⟩ := hgr3.groupNG_inv (by rfl)
  obtain ⟨he, -, -⟩ := hg3.cls_inv
  exact ⟨b2, rfl, hg2.lt_of_minLen1 (by rfl), he⟩

/-- Structure of a heading line match (`ruleHeading`): marker group, optional
keyword group, title group, trailing newline group, with a newline character
closing the match. -/
theorem headingRE_inv {s : List Char} {i e : Nat} {g : Caps}
    (h : Sem headingRE s i e [] g) :
    ∃ b1 b3, i < b1 ∧ e = b3 + 1 ∧ s[b3]? = some '\n' ∧
      ((g = [(4, b3, e), (3, b1, b3), (1, i, b1)] ∧ b1 < b3) ∨
       (∃ b2, g = [(4, b3, e), (3, b2, b3), (2, b1, b2), (1, i, b1)] ∧
         b1 < b2 ∧ b2 < b3)) := by
  obtain ⟨m0, g0, hbol, hrest⟩ := h.cat_inv
  obtain ⟨rfl, rfl⟩ := hbol.bol_inv
  obtain ⟨b1, g1, hgr1, hrest2⟩ := hrest.cat_inv
  obtain ⟨hB1, rfl⟩ := hgr1.groupNG_inv (by rfl)
  obtain ⟨b2, g2, hopt, hrest3⟩ := hrest2.cat_inv
  obtain ⟨b3, g3, hgr3, hgr4⟩ := hrest3.cat_inv
  obtain ⟨hg3, rfl⟩ := hgr3.groupNG_inv (by rfl)
  obtain ⟨hg4, rfl⟩ := hgr4.groupNG_inv (by rfl)
  obtain ⟨he, -, c, hc, hpc⟩ := hg4.cls_inv
  have hcnl : c = '\n' := by
    have := of_decide_eq_true hpc
    exact this
  subst hcnl
  rcases hopt.opt_inv with hkw | ⟨rfl, rfl⟩
  · obtain ⟨hg2, rfl⟩ := hkw.groupNG_inv (by rfl)
    exact ⟨b1, b3, hB1.lt_of_minLen1 (by rfl), he, hc,
      .inr ⟨b2, rfl, hg2.lt_of_minLen1 (by rfl), hg3.lt_of_minLen1 (by rfl)⟩⟩
  · exact ⟨b2, b3, hB1.lt_of_minLen1 (by rfl), he, hc,
      .inl ⟨rfl, hg3.lt_of_minLen1 (by rfl)⟩⟩

/-- Structure of a fenced source block match (`ruleSrcBlock`): five adjacent
capture groups tiling the whole match. -/
theorem srcBlockRE_inv {s : List Char} {i e : Nat} {g : Caps}
    (h : Sem srcBlockRE s i e [] g) :
    ∃ b1 b2 b3 b4,
      g = [(5, b4, e), (4, b3, b4), (3, b2, b3), (2, b1, b2), (1, i, b1)] ∧
      i < b1 ∧ b1 < b2 ∧ b2 < b3 ∧ b3 < b4 ∧ b4 < e := by
  obtain ⟨m0, g0, hbol, hrest⟩ := h.cat_inv
  obtain ⟨rfl, rfl⟩ := hbol.bol_inv
  obtain ⟨b1, g1, hgr1, hrest2⟩ := hrest.cat_inv
  obtain ⟨hB1, rfl⟩ := hgr1.groupNG_inv (by rfl)
  obtain ⟨b2, g2, hgr2, hrest3⟩ := hrest2.cat_inv
  obtain ⟨hB2, rfl⟩ := hgr2.groupNG_inv (by rfl)
  obtain ⟨b3, g3, hgr3, hrest4⟩ := hrest3.cat_inv
  obtain ⟨hB3, rfl⟩ := hgr3.groupNG_inv (by rfl)
  obtain ⟨b4, g4, hgr4, hgr5⟩ := hrest4.cat_inv
  obtain ⟨hB4, rfl⟩ := hgr4.groupNG_inv (by rfl)
  obtain ⟨hB5, rfl⟩ := hgr5.groupNG_inv (by rfl)
  exact ⟨b1, b2, b3, b4, rfl,
    hB1.lt_of_minLen1 (by rfl), hB2.lt_of_minLen1 (by rfl),
    hB3.lt_of_minLen1 (by rfl), hB4.lt_of_minLen1 (by rfl),
    hB5.lt_of_minLen1 (by rfl)⟩

/-! ## Coverage: emitted tokens tile the matched span -/

/-- Resolver whose every sub-tokenizer reproduces its input by concatenating
its output texts (true of every Pygments lexer). -/
def CoveringResolver (resolve : Resolver) : Prop :=
  ∀ name sub, resolve name = some sub → ∀ t, concatTexts (sub t) = t

theorem concatTexts_append (a b : List Token) :
    concatTexts (a ++ b) = concatTexts a ++ concatTexts b := by
  simp [concatTexts]

theorem concatTexts_cons (t : Token) (l : List Token) :
    concatTexts (t :: l) = t.text ++ concatTexts l := by
  simp [concatTexts]

/-- A rule behaves well for the scan invariants: an anchored match is
non-empty, ends inside the text, and the emitted tokens tile the matched
span. -/
def RuleOK (resolve : Resolver) (r : Rule) : Prop :=
  ∀ s pos e g, pos ≤ s.length → reMatch r.re s pos = some (e, g) →
    pos < e ∧ e ≤ s.length ∧
      concatTexts (applyAction resolve s pos e g r.act) = slice s pos e

theorem tok_rule_ok (resolve : Resolver) (k : TokKind) (re : RE) (tr : Trans)
    (hm : minLen1 re = true) : RuleOK resolve ⟨re, .tok k, tr⟩ := by
  intro s pos e g hp hmt
  have hsem := reMatch_sound hmt
  exact ⟨hsem.lt_of_minLen1 hm, hsem.le_length hp,
    by simp [applyAction, concatTexts]⟩

theorem bygroups2_cover {s : List Char} {pos b1 e : Nat} (k1 k2 : TokKind)
    (h1 : pos < b1) (h2 : b1 < e) :
    concatTexts (bygroupsTokens s [(2, b1, e), (1, pos, b1)] 1 [k1, k2]) =
      slice s pos e := by
  have hc1 : capGet [(2, b1, e), (1, pos, b1)] 1 = some (pos, b1) := by
    simp [capGet, List.find?]
  have hc2 : capGet [(2, b1, e), (1, pos, b1)] 2 = some (b1, e) := by
    simp [capGet, List.find?]
  simp only [bygroupsTokens, hc1, hc2, if_pos h1, if_pos h2]
  simp only [concatTexts, List.map_append, List.flatten_append, List.map_cons,
    List.map_nil, List.flatten_cons, List.flatten_nil, List.append_nil,
    List.nil_append, List.append_assoc]
  exact slice_append h1.le h2.le

theorem bygroups3_cover {s : List Char} {pos b1 b2 e : Nat}
    (k1 k2 k3 : TokKind) (h1 : pos < b1) (h2 : b1 < b2) (h3 : b2 < e) :
    concatTexts
      (bygroupsTokens s [(3, b2, e), (2, b1, b2), (1, pos, b1)] 1
        [k1, k2, k3]) = slice s pos e := by
  have hc1 : capGet [(3, b2, e), (2, b1, b2), (1, pos, b1)] 1 =
      some (pos, b1) := by simp [capGet, List.find?]
  have hc2 : capGet [(3, b2, e), (2, b1, b2), (1, pos, b1)] 2 =
      some (b1, b2) := by simp [capGet, List.find?]
  have hc3 : capGet [(3, b2, e), (2, b1, b2), (1, pos, b1)] 3 =
      some (b2, e) := by simp [capGet, List.find?]
  simp only [bygroupsTokens, hc1, hc2, hc3, if_pos h1, if_pos h2, if_pos h3]
  simp only [concatTexts, List.map_append, List.flatten_append, List.map_cons,
    List.map_nil, List.flatten_cons, List.flatten_nil, List.append_nil,
    List.nil_append, List.append_assoc]
  rw [slice_append h2.le h3.le, slice_append h1.le (by omega)]

theorem meta_rule_ok (resolve : Resolver) : RuleOK resolve ruleMeta := by
  intro s pos e g hp hmt
  have hsem := reMatch_sound hmt
  obtain ⟨b1, rfl, h1, h2⟩ := metaRE_inv hsem
  refine ⟨by omega, hsem.le_length hp, ?_⟩
  exact bygroups2_cover _ _ h1 (by omega)

theorem drawer_rule_ok (resolve : Resolver) : RuleOK resolve ruleDrawerLine := by
  intro s pos e g hp hmt
  have hsem := reMatch_sound hmt
  obtain ⟨b1, rfl, h1, h2⟩ := drawerRE_inv hsem
  refine ⟨by omega, hsem.le_length hp, ?_⟩
  exact bygroups2_cover _ _ h1 (by omega)

theorem eqEmph_rule_ok (resolve : Resolver) : RuleOK resolve ruleEqEmph := by
  intro s pos e g hp hmt
  have hsem := reMatch_sound hmt
  obtain ⟨b2, rfl, h2, h3⟩ := eqEmphRE_inv hsem
  refine ⟨by omega, hsem.le_length hp, ?_⟩
  exact bygroups3_cover _ _ _ (by omega) h2 (by omega)

theorem starEmph_rule_ok (resolve : Resolver) : RuleOK resolve ruleStarEmph := by
  intro s pos e g hp hmt
  have hsem := reMatch_sound hmt
  obtain ⟨b2, rfl, h2, h3⟩ := starEmphRE_inv hsem
  refine ⟨by omega, hsem.le_length hp, ?_⟩
  exact bygroups3_cover _ _ _ (by omega) h2 (by omega)

theorem heading_rule_ok (resolve : Resolver) : RuleOK resolve ruleHeading := by
  intro s pos e g hp hmt
  have hsem := reMatch_sound hmt
  obtain ⟨b1, b3, h1, he, hnl, hcase⟩ := headingRE_inv hsem
  rcases hcase with ⟨rfl, h13⟩ | ⟨b2, rfl, h12, h23⟩
  · refine ⟨by omega, hsem.le_length hp, ?_⟩
    have hc1 : capGet [(4, b3, e), (3, b1, b3), (1, pos, b1)] 1 =
        some (pos, b1) := by simp [capGet, List.find?]
    have hc2 : capGet [(4, b3, e), (3, b1, b3), (1, pos, b1)] 2 = none := by
      simp [capGet, List.find?]
    have hc3 : capGet [(4, b3, e), (3, b1, b3), (1, pos, b1)] 3 =
        some (b1, b3) := by simp [capGet, List.find?]
    have hc4 : capGet [(4, b3, e), (3, b1, b3), (1, pos, b1)] 4 =
        some (b3, e) := by simp [capGet, List.find?]
    simp only [applyAction, ruleHeading, headingTokens, hc1, hc2, hc3, hc4]
    simp only [concatTexts, List.map_append, List.flatten_append, List.map_cons,
      List.map_nil, List.flatten_cons, List.flatten_nil, List.append_nil,
      List.nil_append, List.append_assoc]
    rw [slice_append h13.le (by omega), slice_append h1.le (by omega)]
  · refine ⟨by omega, hsem.le_length hp, ?_⟩
    have hc1 : capGet [(4, b3, e), (3, b2, b3), (2, b1, b2), (1, pos, b1)] 1 =
        some (pos, b1) := by simp [capGet, List.find?]
    have hc2 : capGet [(4, b3, e), (3, b2, b3), (2, b1, b2), (1, pos, b1)] 2 =
        some (b1, b2) := by simp [capGet, List.find?]
    have hc3 : capGet [(4, b3, e), (3, b2, b3), (2, b1, b2), (1, pos, b1)] 3 =
        some (b2, b3) := by simp [capGet, List.find?]
    have hc4 : capGet [(4, b3, e), (3, b2, b3), (2, b1, b2), (1, pos, b1)] 4 =
        some (b3, e) := by simp [capGet, List.find?]
    simp only [applyAction, ruleHeading, headingTokens, hc1, hc2, hc3, hc4]
    simp only [concatTexts, List.map_append, List.flatten_append, List.map_cons,
      List.map_nil, List.flatten_cons, List.flatten_nil, List.append_nil,
      List.nil_append, List.append_assoc]
    rw [slice_append h23.le (by omega), slice_append h12.le (by omega),
      slice_append h1.le (by omega)]

theorem srcBlock_rule_ok (resolve : Resolver)
    (hres : CoveringResolver resolve) : RuleOK resolve ruleSrcBlock := by
  intro s pos e g hp hmt
  have hsem := reMatch_sound hmt
  obtain ⟨b1, b2, b3, b4, rfl, h1, h2, h3, h4, h5⟩ := srcBlockRE_inv hsem
  refine ⟨by omega, hsem.le_length hp, ?_⟩
  have hc1 : capGet
      [(5, b4, e), (4, b3, b4), (3, b2, b3), (2, b1, b2), (1, pos, b1)] 1 =
      some (pos, b1) := by simp [capGet, List.find?]
  have hc2 : capGet
      [(5, b4, e), (4, b3, b4), (3, b2, b3), (2, b1, b2), (1, pos, b1)] 2 =
      some (b1, b2) := by simp [capGet, List.find?]
  have hc3 : capGet
      [(5, b4, e), (4, b3, b4), (3, b2, b3), (2, b1, b2), (1, pos, b1)] 3 =
      some (b2, b3) := by simp [capGet, List.find?]
  have hc4 : capGet
      [(5, b4, e), (4, b3, b4), (3, b2, b3), (2, b1, b2), (1, pos, b1)] 4 =
      some (b3, b4) := by simp [capGet, List.find?]
  have hc5 : capGet
      [(5, b4, e), (4, b3, b4), (3, b2, b3), (2, b1, b2), (1, pos, b1)] 5 =
      some (b4, e) := by simp [capGet, List.find?]
  rcases hr : resolve (lexerAlias (slice s b1 b2)) with _ | sub
  · simp only [applyAction, ruleSrcBlock, sourceBlockTokens, hc1, hc2, hc3,
      hc4, hc5, hr]
    simp only [concatTexts, List.map_append, List.flatten_append, List.map_cons,
      List.map_nil, List.flatten_cons, List.flatten_nil, List.append_nil,
      List.nil_append, List.append_assoc]
    rw [slice_append h4.le (by omega : b4 ≤ e),
      slice_append h3.le (by omega : b3 ≤ e),
      slice_append h2.le (by omega : b2 ≤ e),
      slice_append h1.le (by omega : b1 ≤ e)]
  · simp only [applyAction, ruleSrcBlock, sourceBlockTokens, hc1, hc2, hc3,
      hc4, hc5, hr]
    simp only [concatTexts, List.map_append, List.flatten_append, List.map_cons,
      List.map_nil, List.flatten_cons, List.flatten_nil, List.append_nil,
      List.nil_append, List.append_assoc]
    have hsub := hres _ _ hr (slice s b3 b4)
    simp only [concatTexts] at hsub
    rw [hsub]
    rw [slice_append h4.le (by omega : b4 ≤ e),
      slice_append h3.le (by omega : b3 ≤ e),
      slice_append h2.le (by omega : b2 ≤ e),
      slice_append h1.le (by omega : b1 ≤ e)]

/-- Every rule of every state table is well-behaved. -/
theorem orgRules_ok (resolve : Resolver) (hres : CoveringResolver resolve) :
    ∀ st, ∀ r ∈ orgTokens st, RuleOK resolve r := by
  intro st r hr
  cases st <;>
    simp only [orgTokens, rootRules, inlineRules, todoRules, scheduledRules,
      blockRules, List.mem_append, List.mem_cons,
      List.not_mem_nil, or_false] at hr
  case root =>
    rcases hr with (rfl | rfl | rfl | rfl | rfl | rfl | rfl | rfl) |
      (rfl | rfl | rfl | rfl | rfl | rfl)
    · exact heading_rule_ok resolve
    · exact srcBlock_rule_ok resolve hres
    · exact tok_rule_ok resolve _ _ _ (by rfl)
    · exact meta_rule_ok resolve
    · exact drawer_rule_ok resolve
    · exact tok_rule_ok resolve _ _ _ (by rfl)
    · exact tok_rule_ok resolve _ _ _ (by rfl)
    · exact tok_rule_ok resolve _ _ _ (by rfl)
    · exact tok_rule_ok resolve _ _ _ (by rfl)
    · exact eqEmph_rule_ok resolve
    · exact starEmph_rule_ok resolve
    · exact tok_rule_ok resolve _ _ _ (by rfl)
    · exact tok_rule_ok resolve _ _ _ (by rfl)
    · exact tok_rule_ok resolve _ _ _ (by rfl)
  case todo =>
    rcases hr with rfl | rfl | rfl | rfl
    · exact tok_rule_ok resolve _ _ _ (by rfl)
    · exact tok_rule_ok resolve _ _ _ (by rfl)
    · exact tok_rule_ok resolve _ _ _ (by rfl)
    · exact tok_rule_ok resolve _ _ _ (by rfl)
  case scheduled =>
    rcases hr with rfl | rfl | rfl | rfl
    · exact tok_rule_ok resolve _ _ _ (by rfl)
    · exact tok_rule_ok resolve _ _ _ (by rfl)
    · exact tok_rule_ok resolve _ _ _ (by rfl)
    · exact tok_rule_ok resolve _ _ _ (by rfl)
  case inline =>
    rcases hr with rfl | rfl | rfl | rfl | rfl | rfl
    · exact tok_rule_ok resolve _ _ _ (by rfl)
    · exact eqEmph_rule_ok resolve
    · exact starEmph_rule_ok resolve
    · exact tok_rule_ok resolve _ _ _ (by rfl)
    · exact tok_rule_ok resolve _ _ _ (by rfl)
    · exact tok_rule_ok resolve _ _ _ (by rfl)
  case block =>
    rcases hr with rfl | rfl | rfl | rfl
    · exact tok_rule_ok resolve _ _ _ (by rfl)
    · exact tok_rule_ok resolve _ _ _ (by rfl)
    · exact tok_rule_ok resolve _ _ _ (by rfl)
    · exact tok_rule_ok resolve _ _ _ (by rfl)

theorem firstMatch_spec {s : List Char} {pos : Nat} :
    ∀ {rs : List Rule} {r : Rule} {e : Nat} {g : Caps},
      firstMatch s pos rs = some (r, e, g) →
      r ∈ rs ∧ reMatch r.re s pos = some (e, g) := by
  intro rs
  induction rs with
  | nil => intro r e g h; cases h
  | cons a l ih =>
    intro r e g h
    rw [firstMatch] at h
    rcases hm : reMatch a.re s pos with _ | ⟨p, q⟩ <;> rw [hm] at h
    · obtain ⟨hmem, hre⟩ := ih h
      exact ⟨List.mem_cons_of_mem _ hmem, hre⟩
    · simp only [Option.some.injEq] at h
      obtain ⟨rfl, rfl, rfl⟩ := Prod.mk.injEq .. ▸ h
      exact ⟨List.mem_cons_self _ _, hm⟩

/-- Core coverage invariant of the scanner loop: from any cursor position and
any state stack, the emitted texts concatenate to the unscanned suffix. -/
theorem scanAux_cover (resolve : Resolver) (hres : CoveringResolver resolve)
    (s : List Char) :
    ∀ fuel stack pos, pos ≤ s.length → s.length - pos < fuel →
      concatTexts (scanAux orgTokens resolve s fuel stack pos).1 =
        s.drop pos := by
  intro fuel
  induction fuel with
  | zero => intro stack pos hp hf; omega
  | succ fuel ih =>
    intro stack pos hp hf
    rw [scanAux]
    rcases hfm : firstMatch s pos (orgTokens (stack.headD .root)) with _ |
      ⟨r, e, g⟩ <;> simp only [hfm]
    · by_cases hlen : pos < s.length
      · rw [dif_pos hlen]
        have hdrop : s.drop pos = s.get ⟨pos, hlen⟩ :: s.drop (pos + 1) := by
          rw [List.drop_eq_getElem_cons hlen]
          rfl
        by_cases hnl : s.get ⟨pos, hlen⟩ = '\n'
        · rw [if_pos hnl]
          rw [concatTexts_cons, ih [.root] (pos + 1) (by omega) (by omega)]
          rw [hdrop, hnl]
          rfl
        · rw [if_neg hnl]
          rw [concatTexts_cons, ih stack (pos + 1) (by omega) (by omega)]
          rw [hdrop]
          rfl
      · rw [dif_neg hlen]
        have : s.drop pos = [] := List.drop_eq_nil_of_le (by omega)
        rw [this]
        simp [concatTexts]
    · obtain ⟨hmem, hre⟩ := firstMatch_spec hfm
      obtain ⟨hlt, hle, hcov⟩ :=
        orgRules_ok resolve hres _ r hmem s pos e g hp hre
      rw [if_neg (by omega)]
      rw [concatTexts_append, hcov,
        ih (applyTrans stack r.trans) e hle (by omega)]
      exact (drop_eq_slice_append hlt.le).symm

/-- Coverage of a full scan from the root state. -/
theorem tokens_cover (resolve : Resolver) (hres : CoveringResolver resolve)
    (s : List Char) : concatTexts (get_tokens_unprocessed resolve s) = s := by
  have h := scanAux_cover resolve hres s (s.length + 1) [.root] 0 (by omega)
    (by omega)
  simpa [get_tokens_unprocessed] using h

/-! ## Unreachability of the `todo` state -/

/-- No rule of any state table pushes the `todo` state. -/
theorem no_rule_pushes_todo :
    ∀ st, ∀ tr ∈ (orgTokens st).map Rule.trans, tr ≠ .push .todo := by
  intro st
  cases st <;> decide

theorem applyTrans_no_todo {stack : List StateName} {tr : Trans}
    (hs : StateName.todo ∉ stack) (ht : tr ≠ .push .todo) :
    StateName.todo ∉ applyTrans stack tr := by
  cases tr with
  | stay => exact hs
  | push st =>
    intro hmem
    rcases List.mem_cons.mp hmem with heq | hmem2
    · exact ht (by rw [heq])
    · exact hs hmem2
  | pop => intro hmem; exact hs (List.mem_of_mem_tail hmem)

/-- During a scan that starts without `todo` on the stack, no visited stack
ever contains the `todo` state. -/
theorem scanStacks_no_todo (resolve : Resolver) (s : List Char) :
    ∀ fuel stack pos, StateName.todo ∉ stack →
      ∀ st ∈ scanStacks orgTokens resolve s fuel stack pos,
        StateName.todo ∉ st := by
  intro fuel
  induction fuel with
  | zero =>
    intro stack pos hs st hmem
    simp only [scanStacks, List.mem_singleton] at hmem
    subst hmem
    exact hs
  | succ fuel ih =>
    intro stack pos hs st hmem
    rw [scanStacks] at hmem
    rcases List.mem_cons.mp hmem with rfl | hmem2
    · exact hs
    · rcases hfm : firstMatch s pos (orgTokens (stack.headD .root)) with _ |
        ⟨r, e, g⟩ <;> rw [hfm] at hmem2
      · by_cases hlen : pos < s.length
        · rw [dif_pos hlen] at hmem2
          by_cases hnl : s.get ⟨pos, hlen⟩ = '\n'
          · rw [if_pos hnl] at hmem2
            exact ih [.root] (pos + 1) (by simp) st hmem2
          · rw [if_neg hnl] at hmem2
            exact ih stack (pos + 1) hs st hmem2
        · rw [dif_neg hlen] at hmem2
          simp at hmem2
      · replace hmem2 : st ∈ (if e ≤ pos then ([] : List (List StateName))
            else scanStacks orgTokens resolve s fuel
              (applyTrans stack r.trans) e) := hmem2
        by_cases he : e ≤ pos
        · rw [if_pos he] at hmem2
          simp at hmem2
        · rw [if_neg he] at hmem2
          have hmemr := (firstMatch_spec hfm).1
          have htr := no_rule_pushes_todo (stack.headD .root) r.trans
            (List.mem_map_of_mem Rule.trans hmemr)
          exact ih (applyTrans stack r.trans) e
            (applyTrans_no_todo hs htr) st hmem2

/-- The table with the rules of the `todo` state removed. -/
def orgTokensNoTodo : StateName → List Rule
  | .todo => []
  | st => orgTokens st

/-- Scanning with the `todo` rules removed is indistinguishable: the `todo`
table contributes nothing to any scan that starts without it on the stack. -/
theorem scanAux_no_todo_table (resolve : Resolver) (s : List Char) :
    ∀ fuel stack pos, StateName.todo ∉ stack →
      scanAux orgTokensNoTodo resolve s fuel stack pos =
        scanAux orgTokens resolve s fuel stack pos := by
  intro fuel
  induction fuel with
  | zero => intro stack pos hs; rfl
  | succ fuel ih =>
    intro stack pos hs
    have htop : stack.headD .root ≠ .todo := by
      cases stack with
      | nil => simp
      | cons a l =>
        simp only [List.headD_cons]
        intro h
        rw [h] at hs
        exact hs (List.mem_cons_self _ _)
    have htbl : orgTokensNoTodo (stack.headD .root) =
        orgTokens (stack.headD .root) := by
      rcases hhd : stack.headD .root
      · rfl
      · exact absurd hhd htop
      · rfl
      · rfl
      · rfl
    rw [scanAux, scanAux, htbl]
    rcases hfm : firstMatch s pos (orgTokens (stack.headD .root)) with _ |
      ⟨r, e, g⟩ <;> simp only [hfm]
    · by_cases hlen : pos < s.length
      · rw [dif_pos hlen, dif_pos hlen]
        by_cases hnl : s.get ⟨pos, hlen⟩ = '\n'
        · rw [if_pos hnl, if_pos hnl, ih [.root] (pos + 1) (by simp)]
        · rw [if_neg hnl, if_neg hnl, ih stack (pos + 1) hs]
      · rw [dif_neg hlen, dif_neg hlen]
    · by_cases he : e ≤ pos
      · rw [if_pos he, if_pos he]
      · rw [if_neg he, if_neg he]
        have hmemr := (firstMatch_spec hfm).1
        have htr := no_rule_pushes_todo (stack.headD .root) r.trans
          (List.mem_map_of_mem Rule.trans hmemr)
        rw [ih (applyTrans stack r.trans) e (applyTrans_no_todo hs htr)]

/-! ## Deterministic evaluation of class chains (the timestamp pattern) -/

/-- Straight-line evaluation of a chain of character classes. -/
def checkCls : List (Char → Bool) → List Char → Nat → Bool
  | [], _, _ => true
  | p :: ps, s, i =>
    match s[i]? with
    | some c => p c && checkCls ps s (i + 1)
    | none => false

theorem reM_clsSeq (ps : List (Char → Bool)) (s : List Char) :
    ∀ i g k, reM (clsSeq ps) s i g k =
      if checkCls ps s i then k (i + ps.length) g else [] := by
  induction ps with
  | nil => intro i g k; simp [clsSeq, reM, checkCls]
  | cons p ps ih =>
    intro i g k
    simp only [clsSeq, reM]
    rcases hs : s[i]? with _ | c
    · simp [checkCls, hs]
    · simp only [checkCls, hs]
      by_cases hp : p c
      · simp only [hp, Bool.true_and, if_pos, ih]
        by_cases hck : checkCls ps s (i + 1)
        · rw [if_pos hck, if_pos hck,
            show i + 1 + ps.length = i + (p :: ps).length by
              simp [List.length_cons]; omega]
        · rw [if_neg hck, if_neg hck]
      · simp [hp]

theorem reMatch_clsSeq (ps : List (Char → Bool)) (s : List Char) (i : Nat) :
    reMatch (clsSeq ps) s i =
      if checkCls ps s i then some (i + ps.length, []) else none := by
  unfold reMatch
  rw [reM_clsSeq]
  by_cases h : checkCls ps s i <;> simp [h]

theorem checkCls_iff (ps : List (Char → Bool)) (s : List Char) :
    ∀ i, checkCls ps s i = true ↔
      ∀ j (hj : j < ps.length),
        ∃ c, s[i + j]? = some c ∧ ps.get ⟨j, hj⟩ c = true := by
  induction ps with
  | nil => intro i; simp [checkCls]
  | cons p ps ih =>
    intro i
    constructor
    · intro h j hj
      rw [checkCls] at h
      rcases hs : s[i]? with _ | c <;> rw [hs] at h
      · cases h
      · rw [Bool.and_eq_true] at h
        cases j with
        | zero => exact ⟨c, by simpa using hs, h.1⟩
        | succ j =>
          obtain ⟨d, hd, hpd⟩ := (ih (i + 1)).mp h.2 j (by simpa using hj)
          refine ⟨d, ?_, by simpa using hpd⟩
          rw [show i + (j + 1) = i + 1 + j by omega]
          exact hd
    · intro h
      rw [checkCls]
      obtain ⟨c, hc, hpc⟩ := h 0 (by simp)
      rw [show i + 0 = i from rfl] at hc
      rw [hc, Bool.and_eq_true]
      refine ⟨by simpa using hpc, (ih (i + 1)).mpr ?_⟩
      intro j hj
      obtain ⟨d, hd, hpd⟩ := h (j + 1) (by simpa using hj)
      refine ⟨d, ?_, by simpa using hpd⟩
      rw [show i + 1 + j = i + (j + 1) by omega]
      exact hd

theorem exists_getElem? {s : List Char} {n : Nat} (h : n < s.length) :
    ∃ c, s[n]? = some c := by
  refine ⟨s.get ⟨n, h⟩, ?_⟩
  rw [List.getElem?_eq_getElem h, List.get_eq_getElem]

theorem mem_of_getElem?_eq {s : List Char} {n : Nat} {c : Char}
    (h : s[n]? = some c) : c ∈ s := by
  have hl := getElem?_lt h
  have h2 := List.getElem?_eq_getElem hl
  rw [h] at h2
  have h3 : s[n] = c := (Option.some.injEq _ _ ▸ h2).symm
  rw [← h3]
  exact List.getElem_mem hl

/-- Shape of a 22-character timestamp span, stated exactly as the claim
describes it: the only constraints are punctuation characters at relative
offsets 0, 5, 8, 11, 15, 18 and 21; the remaining 15 positions may hold any
characters whatsoever. -/
def tsShapeSpec (s : List Char) (i : Nat) : Prop :=
  i + 22 ≤ s.length ∧
  (s[i]? = some '<' ∨ s[i]? = some '[') ∧
  s[i + 5]? = some '-' ∧ s[i + 8]? = some '-' ∧
  s[i + 11]? = some ' ' ∧ s[i + 15]? = some ' ' ∧
  s[i + 18]? = some ':' ∧ (s[i + 21]? = some ']' ∨ s[i + 21]? = some '>')

/-- The timestamp pattern matches at a position exactly when the claimed
punctuation shape holds there, and then it consumes exactly 22 characters
with no captures. -/
theorem tsShape_iff_match (s : List Char) (i : Nat) :
    tsShapeSpec s i ↔ reMatch timestampRE s i = some (i + 22, []) := by
  rw [timestampRE, reMatch_clsSeq]
  constructor
  · intro h
    have hck : checkCls tsPreds s i = true := by
      rw [checkCls_iff]
      obtain ⟨hl, h0, h5, h8, h11, h15, h18, h21⟩ := h
      intro j hj
      have hj22 : j < 22 := hj
      interval_cases j
      · rcases h0 with h0 | h0
        · exact ⟨'<', h0, by rfl⟩
        · exact ⟨'[', h0, by rfl⟩
      · obtain ⟨c, hc⟩ := exists_getElem? (show i + 1 < s.length by omega)
        exact ⟨c, hc, rfl⟩
      · obtain ⟨c, hc⟩ := exists_getElem? (show i + 2 < s.length by omega)
        exact ⟨c, hc, rfl⟩
      · obtain ⟨c, hc⟩ := exists_getElem? (show i + 3 < s.length by omega)
        exact ⟨c, hc, rfl⟩
      · obtain ⟨c, hc⟩ := exists_getElem? (show i + 4 < s.length by omega)
        exact ⟨c, hc, rfl⟩
      · exact ⟨'-', h5, by rfl⟩
      · obtain ⟨c, hc⟩ := exists_getElem? (show i + 6 < s.length by omega)
        exact ⟨c, hc, rfl⟩
      · obtain ⟨c, hc⟩ := exists_getElem? (show i + 7 < s.length by omega)
        exact ⟨c, hc, rfl⟩
      · exact ⟨'-', h8, by rfl⟩
      · obtain ⟨c, hc⟩ := exists_getElem? (show i + 9 < s.length by omega)
        exact ⟨c, hc, rfl⟩
      · obtain ⟨c, hc⟩ := exists_getElem? (show i + 10 < s.length by omega)
        exact ⟨c, hc, rfl⟩
      · exact ⟨' ', h11, by rfl⟩
      · obtain ⟨c, hc⟩ := exists_getElem? (show i + 12 < s.length by omega)
        exact ⟨c, hc, rfl⟩
      · obtain ⟨c, hc⟩ := exists_getElem? (show i + 13 < s.length by omega)
        exact ⟨c, hc, rfl⟩
      · obtain ⟨c, hc⟩ := exists_getElem? (show i + 14 < s.length by omega)
        exact ⟨c, hc, rfl⟩
      · exact ⟨' ', h15, by rfl⟩
      · obtain ⟨c, hc⟩ := exists_getElem? (show i + 16 < s.length by omega)
        exact ⟨c, hc, rfl⟩
      · obtain ⟨c, hc⟩ := exists_getElem? (show i + 17 < s.length by omega)
        exact ⟨c, hc, rfl⟩
      · exact ⟨':', h18, by rfl⟩
      · obtain ⟨c, hc⟩ := exists_getElem? (show i + 19 < s.length by omega)
        exact ⟨c, hc, rfl⟩
      · obtain ⟨c, hc⟩ := exists_getElem? (show i + 20 < s.length by omega)
        exact ⟨c, hc, rfl⟩
      · rcases h21 with h21 | h21
        · exact ⟨']', h21, by rfl⟩
        · exact ⟨'>', h21, by rfl⟩
    rw [if_pos hck]
    rfl
  · intro h
    have hck : checkCls tsPreds s i = true := by
      by_contra hc
      rw [if_neg (by simpa using hc)] at h
      cases h
    rw [checkCls_iff] at hck
    obtain ⟨c0, hc0, hp0⟩ := hck 0 (by decide)
    obtain ⟨c5, hc5, hp5⟩ := hck 5 (by decide)
    obtain ⟨c8, hc8, hp8⟩ := hck 8 (by decide)
    obtain ⟨c11, hc11, hp11⟩ := hck 11 (by decide)
    obtain ⟨c15, hc15, hp15⟩ := hck 15 (by decide)
    obtain ⟨c18, hc18, hp18⟩ := hck 18 (by decide)
    obtain ⟨c21, hc21, hp21⟩ := hck 21 (by decide)
    have hb : i + 21 < s.length := getElem?_lt hc21
    have hp0b : (c0 == '<' || c0 == '[') = true := hp0
    have hp5b : (c5 == '-') = true := hp5
    have hp8b : (c8 == '-') = true := hp8
    have hp11b : (c11 == ' ') = true := hp11
    have hp15b : (c15 == ' ') = true := hp15
    have hp18b : (c18 == ':') = true := hp18
    have hp21b : (c21 == ']' || c21 == '>') = true := hp21
    refine ⟨by omega, ?_, ?_, ?_, ?_, ?_, ?_, ?_⟩
    · rw [Bool.or_eq_true] at hp0b
      rcases hp0b with hp | hp
      · rw [eq_of_beq hp] at hc0
        exact .inl hc0
      · rw [eq_of_beq hp] at hc0
        exact .inr hc0
    · rw [eq_of_beq hp5b] at hc5
      exact hc5
    · rw [eq_of_beq hp8b] at hc8
      exact hc8
    · rw [eq_of_beq hp11b] at hc11
      exact hc11
    · rw [eq_of_beq hp15b] at hc15
      exact hc15
    · rw [eq_of_beq hp18b] at hc18
      exact hc18
    · rw [Bool.or_eq_true] at hp21b
      rcases hp21b with hp | hp
      · rw [eq_of_beq hp] at hc21
        exact .inl hc21
      · rw [eq_of_beq hp] at hc21
        exact .inr hc21

/-- In the `scheduled` state the timestamp rule has top priority: whenever
the claimed shape holds at the cursor, the next emitted token is a single
Timestamp token spanning exactly those 22 characters. -/
theorem scheduled_ts_step (resolve : Resolver) (s : List Char)
    (fuel pos : Nat) (st : List StateName) (hshape : tsShapeSpec s pos) :
    (scanAux orgTokens resolve s (fuel + 1) (.scheduled :: st) pos).1 =
      Token.mk pos OrgMode.Timestamp (slice s pos (pos + 22)) ::
        (scanAux orgTokens resolve s fuel (.scheduled :: st) (pos + 22)).1 := by
  have hm : reMatch timestampRE s pos = some (pos + 22, []) :=
    (tsShape_iff_match s pos).mp hshape
  have hfm : firstMatch s pos scheduledRules =
      some (ruleTsSched, pos + 22, []) := by
    rw [scheduledRules, firstMatch,
      show ruleTsSched.re = timestampRE from rfl, hm]
  rw [scanAux]
  simp only [List.headD_cons, orgTokens, hfm]
  rw [if_neg (by omega)]
  simp only [applyAction, ruleTsSched, applyTrans, List.singleton_append]

/-- Every heading rule match ends in a newline character of the input: the
heading pattern cannot fire on a final line with no trailing newline. -/
theorem headingRE_requires_newline {s : List Char} {i e : Nat} {g : Caps}
    (h : reMatch headingRE s i = some (e, g)) :
    1 ≤ e ∧ s[e - 1]? = some '\n' ∧ '\n' ∈ s := by
  obtain ⟨b1, b3, h1, he, hnl, -⟩ := headingRE_inv (reMatch_sound h)
  subst he
  refine ⟨by omega, by simpa using hnl, mem_of_getElem?_eq hnl⟩

/-- Local recovery of `source_block` on an unresolvable language name: the
combined fence-and-body match still emits the opening fence, then the whole
body verbatim as one single Block token, then the closing fence. -/
theorem srcBlock_fallback (resolve : Resolver) {s : List Char}
    {pos e b1 b2 b3 b4 : Nat} {g : Caps}
    (hm : reMatch srcBlockRE s pos = some (e, g))
    (hg2 : capGet g 2 = some (b1, b2)) (hg4 : capGet g 4 = some (b3, b4))
    (hnone : resolve (lexerAlias (slice s b1 b2)) = none) :
    sourceBlockTokens resolve s pos g =
      [Token.mk pos OrgMode.Block (slice s pos b3),
       Token.mk b3 OrgMode.Block (slice s b3 b4),
       Token.mk b4 OrgMode.Block (slice s b4 e)] := by
  obtain ⟨c1, c2, c3, c4, rfl, h1, h2, h3, h4, h5⟩ :=
    srcBlockRE_inv (reMatch_sound hm)
  have hc1 : capGet
      [(5, c4, e), (4, c3, c4), (3, c2, c3), (2, c1, c2), (1, pos, c1)] 1 =
      some (pos, c1) := by simp [capGet, List.find?]
  have hc2 : capGet
      [(5, c4, e), (4, c3, c4), (3, c2, c3), (2, c1, c2), (1, pos, c1)] 2 =
      some (c1, c2) := by simp [capGet, List.find?]
  have hc3 : capGet
      [(5, c4, e), (4, c3, c4), (3, c2, c3), (2, c1, c2), (1, pos, c1)] 3 =
      some (c2, c3) := by simp [capGet, List.find?]
  have hc4 : capGet
      [(5, c4, e), (4, c3, c4), (3, c2, c3), (2, c1, c2), (1, pos, c1)] 4 =
      some (c3, c4) := by simp [capGet, List.find?]
  have hc5 : capGet
      [(5, c4, e), (4, c3, c4), (3, c2, c3), (2, c1, c2), (1, pos, c1)] 5 =
      some (c4, e) := by simp [capGet, List.find?]
  have he2 := hc2.symm.trans hg2
  simp only [Option.some.injEq, Prod.mk.injEq] at he2
  obtain ⟨rfl, rfl⟩ := he2
  have he4 := hc4.symm.trans hg4
  simp only [Option.some.injEq, Prod.mk.injEq] at he4
  obtain ⟨rfl, rfl⟩ := he4
  simp only [sourceBlockTokens, hc1, hc2, hc3, hc4, hc5, hnone]
  rw [List.append_assoc, slice_append h2.le h3.le,
    slice_append h1.le (by omega)]
  rfl

/-- The heading classification of the code maps a marker-run of `n` stars to
Heading1..Heading4 for `n = 1..4` and to HeadingRest for every `n ≥ 5`. -/
theorem headingKindOf_mapping (level : List Char) :
    (level.count '*' = 1 → headingKindOf level = OrgMode.Heading1) ∧
    (level.count '*' = 2 → headingKindOf level = OrgMode.Heading2) ∧
    (level.count '*' = 3 → headingKindOf level = OrgMode.Heading3) ∧
    (level.count '*' = 4 → headingKindOf level = OrgMode.Heading4) ∧
    (5 ≤ level.count '*' → headingKindOf level = OrgMode.HeadingRest) := by
  refine ⟨?_, ?_, ?_, ?_, ?_⟩ <;> intro h
  · simp [headingKindOf, h, headingLevels]
  · simp [headingKindOf, h, headingLevels]
  · simp [headingKindOf, h, headingLevels]
  · simp [headingKindOf, h, headingLevels]
  · rw [headingKindOf, if_neg (by omega), Nat.min_eq_right (by omega)]
    rfl

/-! ## Demo resolvers for concrete evaluations -/

/-- Offset adjacency of consecutive tokens: the claimed invariant
`token[i].offset + len(token[i].text) == token[i+1].offset`. -/
def adjacentOk : List Token → Bool
  | t1 :: t2 :: ts =>
    (t1.offset + t1.text.length == t2.offset) && adjacentOk (t2 :: ts)
  | _ => true

/-- Resolver that resolves nothing: `ClassNotFound` for every name. -/
def noResolver : Resolver := fun _ => none

/-- Resolver knowing only the "ini" language, whose sub-tokenizer emits its
whole input as one token at body-relative offset 0 — the offset convention of
every Pygments `get_tokens_unprocessed` stream. -/
def iniResolver : Resolver := fun n =>
  if n = "ini".data then some (fun t => [Token.mk 0 .Text t]) else none

/-! ## The claims -/

/-- C1: for every input text, concatenating the text fields of all tokens
emitted by the tokenizer, in emission order, reproduces the original input
exactly — no character missing and none duplicated — provided every resolved
sub-tokenizer itself covers its input (true of every Pygments lexer). -/
theorem C1_concat_reproduces_input (resolve : Resolver)
    (hres : CoveringResolver resolve) (s : List Char) :
    concatTexts (get_tokens_unprocessed resolve s) = s :=
  tokens_cover resolve hres s

theorem C1_concat_reproduces_input_witness :
    concatTexts (get_tokens_unprocessed noResolver
      "* A\n#+BEGIN_QUOTE\nq".data) = "* A\n#+BEGIN_QUOTE\nq".data :=
  C1_concat_reproduces_input noResolver
    (by intro name sub h t; cases h) "* A\n#+BEGIN_QUOTE\nq".data

/-- C2: evaluation of the code at a fenced source block whose language
resolves (alias "conf" → "ini").  The spliced sub-token keeps its
body-relative offset 0 instead of the absolute offset 17, so the claimed
adjacency `token[i].offset + len(token[i].text) = token[i+1].offset` fails
between the opening fence and the first spliced token: the code yields the
sub-lexer tokens verbatim without rebasing. -/
theorem C2_no_rebase_eval :
    (get_tokens_unprocessed iniResolver
        "#+BEGIN_SRC conf\nx=1\n#+END_SRC\n".data).map
        (fun t => (t.offset, t.text.length)) =
      [(0, 17), (0, 4), (21, 10)] ∧
    adjacentOk (get_tokens_unprocessed iniResolver
      "#+BEGIN_SRC conf\nx=1\n#+END_SRC\n".data) = false := by
  decide

/-- C3: the embedded tokenizer is a total function by construction; the
empty input produces the empty token stream, and every input — with or
without a trailing newline — produces a well-formed stream whose texts
concatenate back to exactly that input. -/
theorem C3_totality (resolve : Resolver) (hres : CoveringResolver resolve) :
    get_tokens_unprocessed resolve [] = [] ∧
    ∀ s, concatTexts (get_tokens_unprocessed resolve s) = s := by
  exact ⟨rfl, fun s => tokens_cover resolve hres s⟩

theorem C3_totality_witness :
    get_tokens_unprocessed noResolver [] = [] ∧
    concatTexts (get_tokens_unprocessed noResolver ("* Title".data)) =
      "* Title".data := by
  have h := C3_totality noResolver (by intro name sub hs t; cases hs)
  exact ⟨h.1, h.2 ("* Title".data)⟩

/-- C4: the heading classification maps a marker run of n stars to Heading1,
Heading2, Heading3, Heading4 for n = 1..4 and to HeadingRest for every
n ≥ 5; concretely, "* Title\n" yields a Heading1 token containing the title
"Title" and "***** Title\n" yields HeadingRest tokens. -/
theorem C4_heading_level_mapping :
    (∀ level : List Char,
      (level.count '*' = 1 → headingKindOf level = OrgMode.Heading1) ∧
      (level.count '*' = 2 → headingKindOf level = OrgMode.Heading2) ∧
      (level.count '*' = 3 → headingKindOf level = OrgMode.Heading3) ∧
      (level.count '*' = 4 → headingKindOf level = OrgMode.Heading4) ∧
      (5 ≤ level.count '*' → headingKindOf level = OrgMode.HeadingRest)) ∧
    get_tokens_unprocessed noResolver ("* Title\n".data) =
      [Token.mk 0 OrgMode.Heading1 ("* ".data),
       Token.mk 2 OrgMode.Heading1 ("Title".data),
       Token.mk 7 .Text ("\n".data)] ∧
    get_tokens_unprocessed noResolver ("***** Title\n".data) =
      [Token.mk 0 OrgMode.HeadingRest ("***** ".data),
       Token.mk 6 OrgMode.HeadingRest ("Title".data),
       Token.mk 11 .Text ("\n".data)] := by
  exact ⟨headingKindOf_mapping, by decide, by decide⟩

theorem C4_heading_level_mapping_witness :
    headingKindOf ("***** ".data) = OrgMode.HeadingRest :=
  (C4_heading_level_mapping.1 ("***** ".data)).2.2.2.2 (by decide)

/-- C5 counterexample: the claimed token sequence for "* TODO Buy milk\n"
gives the marker token the text "*", but the first group of the heading
pattern,
`(,?[*]{1,} *)` also captures the following space, so the emitted sequence
differs from the claimed one. -/
theorem C5_counterexample :
    (get_tokens_unprocessed noResolver ("* TODO Buy milk\n".data)).map
        (fun t => (t.kind, t.text)) ≠
      [(OrgMode.Heading1, "*".data), (OrgMode.TodoActive, "TODO".data),
       (OrgMode.Heading1, " Buy milk".data), (TokKind.Text, "\n".data)] := by
  decide

/-- C5 amended: the TODO keyword is normalized case-insensitively
(TODO→TodoActive, DONE→TodoTerminal, WAIT→TodoPending,
CANCELLED→TodoTerminal) and emitted as its own token between the marker and
title tokens; "* TODO Buy milk\n" yields exactly [Heading1:"* ",
TodoActive:"TODO", Heading1:" Buy milk", Text:"\n"] — the marker token
carries its trailing space — and a keyword in any letter case, as in
"* done Task\n", still normalizes (here to TodoTerminal). -/
theorem C5_todo_normalization_amended :
    (∀ w : List Char,
      (w.map Char.toUpper = "TODO".data → todoLookup w = OrgMode.TodoActive) ∧
      (w.map Char.toUpper = "DONE".data →
        todoLookup w = OrgMode.TodoTerminal) ∧
      (w.map Char.toUpper = "WAIT".data →
        todoLookup w = OrgMode.TodoPending) ∧
      (w.map Char.toUpper = "CANCELLED".data →
        todoLookup w = OrgMode.TodoTerminal)) ∧
    get_tokens_unprocessed noResolver ("* TODO Buy milk\n".data) =
      [Token.mk 0 OrgMode.Heading1 ("* ".data),
       Token.mk 2 OrgMode.TodoActive ("TODO".data),
       Token.mk 6 OrgMode.Heading1 (" Buy milk".data),
       Token.mk 15 .Text ("\n".data)] ∧
    get_tokens_unprocessed noResolver ("* done Task\n".data) =
      [Token.mk 0 OrgMode.Heading1 ("* ".data),
       Token.mk 2 OrgMode.TodoTerminal ("done".data),
       Token.mk 6 OrgMode.Heading1 (" Task".data),
       Token.mk 11 .Text ("\n".data)] := by
  refine ⟨?_, by decide, by decide⟩
  intro w
  refine ⟨?_, ?_, ?_, ?_⟩ <;> intro hw <;> simp [todoLookup, hw]

theorem C5_todo_normalization_amended_witness :
    todoLookup ("done".data) = OrgMode.TodoTerminal :=
  ((C5_todo_normalization_amended.1 ("done".data)).2.1) (by decide)

/-- C6: when the language name of a fenced source block does not resolve
(after
the alias table, which maps "conf" to "ini"), the tokenizer recovers
locally: the opening fence is emitted as a Block token, the entire body as
one single Block token with its verbatim text, and the closing fence as a
Block token; the concrete scan of a block with unknown language "foo" shows
exactly this stream. -/
theorem C6_unknown_language_fallback :
    (∀ (resolve : Resolver) (s : List Char) (pos e b1 b2 b3 b4 : Nat)
        (g : Caps),
      reMatch srcBlockRE s pos = some (e, g) →
      capGet g 2 = some (b1, b2) → capGet g 4 = some (b3, b4) →
      resolve (lexerAlias (slice s b1 b2)) = none →
      sourceBlockTokens resolve s pos g =
        [Token.mk pos OrgMode.Block (slice s pos b3),
         Token.mk b3 OrgMode.Block (slice s b3 b4),
         Token.mk b4 OrgMode.Block (slice s b4 e)]) ∧
    lexerAlias ("conf".data) = "ini".data ∧
    get_tokens_unprocessed noResolver
        "#+BEGIN_SRC foo\nx=1\n#+END_SRC\n".data =
      [Token.mk 0 OrgMode.Block ("#+BEGIN_SRC foo\n".data),
       Token.mk 16 OrgMode.Block ("x=1\n".data),
       Token.mk 20 OrgMode.Block ("#+END_SRC\n".data)] := by
  refine ⟨?_, by decide, by decide⟩
  intro resolve s pos e b1 b2 b3 b4 g hm hg2 hg4 hnone
  exact srcBlock_fallback resolve hm hg2 hg4 hnone

theorem C6_unknown_language_fallback_witness :
    sourceBlockTokens noResolver ("#+BEGIN_SRC foo\nx=1\n#+END_SRC\n".data) 0
        [(5, 20, 30), (4, 16, 20), (3, 15, 16), (2, 12, 15), (1, 0, 12)] =
      [Token.mk 0 OrgMode.Block ("#+BEGIN_SRC foo\n".data),
       Token.mk 16 OrgMode.Block ("x=1\n".data),
       Token.mk 20 OrgMode.Block ("#+END_SRC\n".data)] := by
  have h := C6_unknown_language_fallback.1 noResolver
    "#+BEGIN_SRC foo\nx=1\n#+END_SRC\n".data 0 30 12 15 16 20
    [(5, 20, 30), (4, 16, 20), (3, 15, 16), (2, 12, 15), (1, 0, 12)]
    (by decide) (by decide) (by decide) rfl
  rw [h]
  decide

/-- C7: the unterminated block input "#+BEGIN_QUOTE\nhello" raises no error:
the scan terminates normally with a Block-kind span covering from the
opening line to end of input (the two emitted tokens are both Block tokens
and their texts concatenate to the whole input), and the unclosed block
state simply remains on the stack. -/
theorem C7_unterminated_block :
    get_tokens_unprocessed noResolver ("#+BEGIN_QUOTE\nhello".data) =
      [Token.mk 0 OrgMode.Block ("#+BEGIN_QUOTE\n".data),
       Token.mk 14 OrgMode.Block ("hello".data)] ∧
    concatTexts (get_tokens_unprocessed noResolver
      "#+BEGIN_QUOTE\nhello".data) = "#+BEGIN_QUOTE\nhello".data ∧
    finalStack noResolver ("#+BEGIN_QUOTE\nhello".data) =
      [.block, .root] := by
  decide

/-- C8: the timestamp rule checks only the punctuation layout: the pattern
matches at a position (consuming exactly 22 characters) if and only if the
first character is < or [, with dashes at offsets 5 and 8, spaces at 11 and
15, a colon at 18 and a closer at 21, all other positions arbitrary; in the
scheduled state this rule has top priority, so the shape alone forces a
single Timestamp token; in the inline state a span with letters in every
date and time position is emitted as one Timestamp token. -/
theorem C8_timestamp_shape_only :
    (∀ (s : List Char) (i : Nat),
      tsShapeSpec s i ↔ reMatch timestampRE s i = some (i + 22, [])) ∧
    (∀ (resolve : Resolver) (s : List Char) (fuel pos : Nat)
        (st : List StateName), tsShapeSpec s pos →
      (scanAux orgTokens resolve s (fuel + 1) (.scheduled :: st) pos).1 =
        Token.mk pos OrgMode.Timestamp (slice s pos (pos + 22)) ::
          (scanAux orgTokens resolve s fuel (.scheduled :: st)
            (pos + 22)).1) ∧
    get_tokens_unprocessed noResolver ("<abcd-ef-gh IJK lm:no>".data) =
      [Token.mk 0 OrgMode.Timestamp ("<abcd-ef-gh IJK lm:no>".data)] := by
  exact ⟨tsShape_iff_match,
    fun resolve s fuel pos st h => scheduled_ts_step resolve s fuel pos st h,
    by decide⟩

theorem C8_timestamp_shape_only_witness :
    reMatch timestampRE ("<ab\nc-ef-gh IJK lm:no>".data) 0 =
      some (0 + 22, []) :=
  (C8_timestamp_shape_only.1 ("<ab\nc-ef-gh IJK lm:no>".data) 0).mp
    (by unfold tsShapeSpec; decide)

/-- C9: a heading line that ends the input without a trailing newline is
never recognized by the heading rule — every heading match requires a
newline character in the input — and the input "* Title" with no final
newline is emitted by the inline rules as plain Text tokens, with no
Heading-kind or TODO-kind token. -/
theorem C9_heading_requires_newline :
    (∀ (s : List Char) (i e : Nat) (g : Caps),
      reMatch headingRE s i = some (e, g) → '\n' ∈ s) ∧
    get_tokens_unprocessed noResolver ("* Title".data) =
      [Token.mk 0 .Text ("*".data), Token.mk 1 .Text (" Title".data)] := by
  refine ⟨?_, by decide⟩
  intro s i e g h
  exact (headingRE_requires_newline h).2.2

theorem C9_heading_requires_newline_witness : '\n' ∈ "* T\n".data :=
  C9_heading_requires_newline.1 ("* T\n".data) 0 4
    [(4, 3, 4), (3, 2, 3), (1, 0, 2)] (by decide)

/-- C10: the todo state table is unreachable: every state stack the driver
holds during any scan started from the root state is free of the todo
state, and scanning with the todo rule table emptied yields the identical
token stream and final stack for every input and resolver. -/
theorem C10_todo_state_unreachable :
    (∀ (resolve : Resolver) (s : List Char) (fuel pos : Nat),
      ∀ st ∈ scanStacks orgTokens resolve s fuel [.root] pos,
        StateName.todo ∉ st) ∧
    (∀ (resolve : Resolver) (s : List Char),
      scanAux orgTokensNoTodo resolve s (s.length + 1) [.root] 0 =
        scanAux orgTokens resolve s (s.length + 1) [.root] 0) := by
  constructor
  · intro resolve s fuel pos st hmem
    exact scanStacks_no_todo resolve s fuel [.root] pos (by simp) st hmem
  · intro resolve s
    exact scanAux_no_todo_table resolve s _ [.root] 0 (by simp)

theorem C10_todo_state_unreachable_witness :
    StateName.todo ∉ ([.block, .root] : List StateName) ∧
    scanAux orgTokensNoTodo noResolver ("x".data) ("x".data.length + 1)
        [.root] 0 =
      scanAux orgTokens noResolver ("x".data) ("x".data.length + 1)
        [.root] 0 :=
  ⟨C10_todo_state_unreachable.1 noResolver ("#+BEGIN_QUOTE\nq".data) 16 0
    [.block, .root] (by decide),
   C10_todo_state_unreachable.2 noResolver ("x".data)⟩

end OrgLex
